import Mathlib

/-!
# Jeopardy board (`jeopardy.js`): a shallow embedding

The script keeps one global, `categories`, and paints it into an HTML table.
The embedding below keeps the global and the part of the page the script
touches in one record (`App`), turns every synchronous function into a
function on `App`, and every `async` function into a resumption (`Susp`):
the code run up to the next `await` on the network, the state at that point,
and the continuation applied to the response and to the state found when the
task is resumed.
-/

namespace Jeopardy

/-! ## Data model -/

/-- One clue of the global `categories`; `showing` is `null` (`none`),
`"question"` or `"answer"`. -/
structure Clue where
  question : String
  answer : String
  showing : Option String
  deriving DecidableEq

/-- One entry of the global `categories`: `{title, clues}`. -/
structure Category where
  title : String
  clues : List Clue
  deriving DecidableEq

/-- A record of the reply to `GET /api/categories?count=100`; only `id` is read. -/
structure ApiCat where
  id : Nat
  deriving DecidableEq

/-- A clue record of the reply to `GET /api/category?id=..`; only `question` and
`answer` are read. -/
structure ApiClue where
  question : String
  answer : String
  deriving DecidableEq

/-- The reply to `GET /api/category?id=..`: `data.title` and `data.clues`. -/
structure ApiCategory where
  title : String
  clues : List ApiClue
  deriving DecidableEq

/-- A header cell `<th class=".." >text</th>`. -/
structure Th where
  classes : String
  text : String
  deriving DecidableEq

/-- A body cell `<td id=".." class="..">html</td>`.  `nested` holds the classes
that a script has added to elements nested in the content; replacing the content
removes those elements, and their classes with them. -/
structure Td where
  id : String
  classes : List String
  html : String
  nested : List String
  deriving DecidableEq

/-- The global `categories` and the part of the page the script reads or writes:
the rows of `thead` and of `tbody`, the number of loading `<span>`s appended to
`body`, and the class and label of `#start`. -/
structure App where
  categories : List Category
  thead : List (List Th)
  tbody : List (List Td)
  spinners : Nat
  startClass : String
  startText : String
  deriving DecidableEq

/-! ## Strings: template literals, `split`, array keys -/

/-- JavaScript `s.split(sep)` for a one-character separator, on the characters. -/
def splitChars (sep : Char) : List Char → List (List Char)
  | [] => [[]]
  | c :: cs =>
    if c = sep then [] :: splitChars sep cs
    else
      match splitChars sep cs with
      | [] => [[c]]
      | p :: ps => (c :: p) :: ps

/-- JavaScript `s.split(sep)` for a one-character separator. -/
def split (s : String) (sep : Char) : List String :=
  (splitChars sep s.data).map String.mk

/-- The value of a string of decimal digits, `none` when some character is not a digit. -/
def parseDigits : List Char → Nat → Option Nat
  | [], acc => some acc
  | c :: cs, acc => if c.isDigit then parseDigits cs (10 * acc + (c.toNat - 48)) else none

/-- The array index a property key stands for: a key is an index exactly when it
is the canonical decimal spelling of a number (`"3"`, not `"03"`, not `""`). -/
def arrayIndex (key : String) : Option Nat :=
  match key.data with
  | [] => none
  | cs =>
    match parseDigits cs 0 with
    | some n => if toString n = key then some n else none
    | none => none

/-- The expression `xs[key]` for an array `xs` and a string key; `none` is `undefined`. -/
def getKey {α : Type} (xs : List α) (key : String) : Option α :=
  match arrayIndex key with
  | some n => xs[n]?
  | none => none

/-- The template literal `${catI}-${clueI}`. -/
def cellId (catI clueI : String) : String :=
  catI ++ "-" ++ clueI

/-! ## `handleClick` -/

/-- Where a click landed: on the `<td>` in row `row`, column `col` of `tbody`
(`evt.target.closest('td')`), `onTd` telling whether `evt.target` is that `<td>`
itself or an element nested in its content. -/
structure ClickEvent where
  row : Nat
  col : Nat
  onTd : Bool
  deriving DecidableEq

/-- The `<td>` in row `r`, column `k` of a table body. -/
def cellAt (tbody : List (List Td)) (r k : Nat) : Option Td :=
  match tbody[r]? with
  | some tr => tr[k]?
  | none => none

/-- The expression `classList.add(c)`. -/
def classListAdd (classes : List String) (c : String) : List String :=
  if c ∈ classes then classes else classes ++ [c]

/-- The statement `evt.target.classList.add(c)`: the class goes to the `<td>` when it is
the target, and to the nested element otherwise. -/
def targetAddClass (evt : ClickEvent) (c : String) (tbody : List (List Td)) : List (List Td) :=
  tbody.modify
    (fun tr => tr.modify
      (fun td =>
        if evt.onTd then { td with classes := classListAdd td.classes c }
        else { td with nested := classListAdd td.nested c })
      evt.col)
    evt.row

/-- Replace the content of the first `<td>` of a row whose id is `id`; `none` when the row
has no such cell. -/
def setHtmlRow (id msg : String) : List Td → Option (List Td)
  | [] => none
  | td :: tds =>
    if td.id = id then some ({ td with html := msg, nested := [] } :: tds)
    else (setHtmlRow id msg tds).map (td :: ·)

/-- The statement `$('#id').html(msg)`: replace the content of the first `<td>` of the
document whose id is `id`. -/
def setHtml (id msg : String) : List (List Td) → List (List Td)
  | [] => []
  | tr :: trs =>
    match setHtmlRow id msg tr with
    | some tr' => tr' :: trs
    | none => tr :: setHtml id msg trs

/-- The assignment `categories[c].clues[q].showing = v` for an existing clue. -/
def setShowingAt (categories : List Category) (c q : Nat) (v : String) : List Category :=
  categories.modify
    (fun cat =>
      { cat with clues := cat.clues.modify (fun clue => { clue with showing := some v }) q })
    c

/-- The assignment `categories[catI].clues[clueI].showing = v`, the keys being the strings
that named the clue when it was read. -/
def setShowing (categories : List Category) (catI clueI : String) (v : String) : List Category :=
  match arrayIndex catI, arrayIndex clueI with
  | some c, some q => setShowingAt categories c q v
  | _, _ => categories

/-- JavaScript truthiness of `clue.showing`: `null` and `""` are falsy. -/
def truthy : Option String → Bool
  | none => false
  | some v => v != ""

/-- The function `handleClick(evt)`; `none` is a `TypeError` thrown before anything was
written (no `<td>`, no such category, no such clue). -/
def handleClick (evt : ClickEvent) (s : App) : Option App :=
  match cellAt s.tbody evt.row evt.col with
  | none => none
  | some td =>
  let id := td.id
  let parts := split id '-'
  match parts[0]?, parts[1]? with
  | some catI, some clueI =>
    match getKey s.categories catI with
    | none => none
    | some cat =>
    match getKey cat.clues clueI with
    | none => none
    | some clue =>
      if !truthy clue.showing then
        some { s with
          categories := setShowing s.categories catI clueI "question"
          tbody := setHtml (cellId catI clueI) clue.question s.tbody }
      else if clue.showing = some "question" then
        some { s with
          categories := setShowing s.categories catI clueI "answer"
          tbody := setHtml (cellId catI clueI) clue.answer
            (targetAddClass evt "bg-success" s.tbody) }
      else some s
  | _, _ => none

/-- The click handler as the page runs it: an exception thrown by the handler is not caught
by anything and leaves the state as it was. -/
def click (s : App) (evt : ClickEvent) : App :=
  (handleClick evt s).getD s

/-! ## `fillTable`, `showLoadingView`, `hideLoadingView` -/

/-- The markup of the placeholder shown in every fresh cell. -/
def placeholder : String := "<i class=\"fas fa-question-circle\"></i>"

/-- The header cell built for one title. -/
def headerCell (title : String) : Th :=
  { classes := "bg-primary text-white col-2", text := title }

/-- The titles `categories[0].title`, ..., `categories[n-1].title`, read in that order;
`none` when one of the entries is `undefined` (a `TypeError`). -/
def headerTitles (categories : List Category) : Nat → Option (List String)
  | 0 => some []
  | n + 1 =>
    match headerTitles categories n, categories[n]? with
    | some ts, some cat => some (ts ++ [cat.title])
    | _, _ => none

/-- The body cell built for column `catI` of row `clueI`. -/
def bodyCell (clueI catI : Nat) : Td :=
  { id := cellId (toString catI) (toString clueI)
    classes := ["bg-primary", "text-white"]
    html := placeholder
    nested := [] }

/-- The body row built for `clueI`: one cell for each `catI` below 6. -/
def bodyRow (clueI : Nat) : List Td :=
  (List.range 6).map (bodyCell clueI)

/-- The result of running a block of code to its end: it returned with the state `s`, or
threw after having brought the state to `s`. -/
inductive Ran where
  | returned (s : App)
  | threw (s : App)
  deriving DecidableEq

/-- The state a block of code left behind. -/
def Ran.state : Ran → App
  | .returned s => s
  | .threw s => s

/-- The function `fillTable()`.  It has no `await`, so a call runs it to its end at once;
when the header loop throws, `thead` has already been emptied and nothing else is done. -/
def fillTable (s : App) : Ran :=
  let s1 := { s with thead := [] }
  match headerTitles s1.categories 6 with
  | none => .threw s1
  | some titles =>
    let s2 := { s1 with thead := s1.thead ++ [titles.map headerCell] }
    let s3 := { s2 with tbody := [] }
    .returned { s3 with tbody := s3.tbody ++ (List.range 5).map bodyRow }

/-- The synchronous part of `showLoadingView()`: wipe the board and append the spinner.  The
callback it hands to `setTimeout` is `timeoutCallback` below. -/
def showLoadingView (s : App) : App :=
  { s with thead := [], tbody := [], spinners := s.spinners + 1 }

/-- The function `hideLoadingView()`. -/
def hideLoadingView (s : App) : App :=
  { s with spinners := 0, startClass := "btn-warning", startText := "Restart" }

/-! ## `_.sampleSize` -/

/-- The helper `baseRandom(lower, upper)` of lodash, `lower + floor(random() * (upper - lower + 1))`,
as a function of the raw draw `r`: an integer between `lower` and `upper`. -/
def baseRandom (r lower upper : Nat) : Nat :=
  lower + r % (upper - lower + 1)

/-- Exchange the entries `i` and `j` of an array. -/
def swap {α : Type} (arr : List α) (i j : Nat) : List α :=
  match arr[i]?, arr[j]? with
  | some a, some b => (arr.set i b).set j a
  | _, _ => arr

/-- The loop of `shuffleSelf`: for `index` up to `size`, exchange the entry `index` with the
entry at a random position between `index` and `lastIndex`; `todo` is `size - index`. -/
def shuffleLoop {α : Type} (rand : Nat → Nat) (lastIndex : Nat) : Nat → Nat → List α → List α
  | 0, _, arr => arr
  | todo + 1, index, arr =>
    shuffleLoop rand lastIndex todo (index + 1)
      (swap arr (baseRandom (rand index) index lastIndex) index)

/-- The helper `shuffleSelf(array, size)` of lodash: a Fisher-Yates shuffle stopped after
`size` exchanges, the array then being cut to its first `size` entries. -/
def shuffleSelf {α : Type} (rand : Nat → Nat) (arr : List α) (size : Nat) : List α :=
  (shuffleLoop rand (arr.length - 1) size 0 arr).take size

/-- Modelled from the spec: `_.sampleSize(array, n)` belongs to the lodash library, which the
page loads and the repository does not contain.  The spec calls it a random sample of `n`
distinct entries drawn without replacement; the definition is the library's way of drawing
one, `shuffleSelf(copyArray(array), baseClamp(n, 0, array.length))`, with `rand index` standing
for the raw outcome of the draw made at step `index`, so that every outcome of the sampling
is some `rand`. -/
def sampleSize {α : Type} (rand : Nat → Nat) (arr : List α) (n : Nat) : List α :=
  shuffleSelf rand arr (min n arr.length)

/-! ## Asynchronous functions -/

/-- An `async` call, run as far as it goes without the network: it has returned `a`
(`done`), thrown (`failed`), or is suspended at an `await` of a request, with the rest of the
function as a continuation of the reply (`none`: the request failed) and of the state found
when the task is resumed.  The state `s` is the one the call has left behind at that
point. -/
inductive Susp (α : Type) where
  | done (s : App) (a : α)
  | failed (s : App)
  | awaitCategories (s : App) (count : Nat) (k : Option (List ApiCat) → App → Susp α)
  | awaitCategory (s : App) (catId : Nat) (k : Option ApiCategory → App → Susp α)

/-- The state at the point where the call handed control back. -/
def Susp.state {α : Type} : Susp α → App
  | .done s _ => s
  | .failed s => s
  | .awaitCategories s _ _ => s
  | .awaitCategory s _ _ => s

/-- Awaiting a call and going on with `f`: `const x = await p; f(x)`. -/
def Susp.bind {α β : Type} : Susp α → (α → App → Susp β) → Susp β
  | .done s a, f => f a s
  | .failed s, _ => .failed s
  | .awaitCategories s n k, f => .awaitCategories s n (fun r s1 => (k r s1).bind f)
  | .awaitCategory s c k, f => .awaitCategory s c (fun r s1 => (k r s1).bind f)

/-- Calling without `await` and going on with the synchronous code `f`: the caller runs
`f` as soon as the call hands control back, whether it has finished or is suspended. -/
def Susp.thenSync {α : Type} (f : App → App) : Susp α → Susp α
  | .done s a => .done (f s) a
  | .failed s => .failed (f s)
  | .awaitCategories s n k => .awaitCategories (f s) n k
  | .awaitCategory s c k => .awaitCategory (f s) c k

/-- The function `getCategoryIds()`. -/
def getCategoryIds (rand : Nat → Nat) (s : App) : Susp (List Nat) :=
  .awaitCategories s 100 fun response s1 =>
    match response with
    | none => .failed s1
    | some data =>
      let catIds := data.map (fun cat => cat.id)
      .done s1 (sampleSize rand catIds 6)

/-- What `getCategory` builds from the reply `data`. -/
def categoryOf (rand : Nat → Nat) (data : ApiCategory) : Category :=
  let clue := data.clues
  let randomClues := sampleSize rand clue 5
  let clues := randomClues.map fun clue =>
    ({ question := clue.question, answer := clue.answer, showing := none } : Clue)
  { title := data.title, clues := clues }

/-- The function `getCategory(catId)`. -/
def getCategory (rand : Nat → Nat) (catId : Nat) (s : App) : Susp Category :=
  .awaitCategory s catId fun response s1 =>
    match response with
    | none => .failed s1
    | some data => .done s1 (categoryOf rand data)

/-- The loop `for (let catId of catIds) categories.push(await getCategory(catId))`; the
`i`-th category fetched by a run samples its clues with `rng (i + 1)`. -/
def pushEach (rng : Nat → Nat → Nat) : Nat → List Nat → App → Susp Unit
  | _, [], s => .done s ()
  | i, catId :: rest, s =>
    (getCategory (rng (i + 1)) catId s).bind fun cat s1 =>
      pushEach rng (i + 1) rest { s1 with categories := s1.categories ++ [cat] }

/-- The function `setupAndStart()`; `rng 0` samples the identifiers.  The call of
`fillTable()` is not awaited and what it throws is not seen. -/
def setupAndStart (rng : Nat → Nat → Nat) (s : App) : Susp Unit :=
  (getCategoryIds (rng 0) s).bind fun catIds s1 =>
    let s2 := { s1 with categories := [] }
    (pushEach rng 0 catIds s2).bind fun _ s3 =>
      .done (fillTable s3).state ()

/-- The callback `showLoadingView` hands to `setTimeout`:
`function(){ setupAndStart(); hideLoadingView() }`. -/
def timeoutCallback (rng : Nat → Nat → Nat) (s : App) : Susp Unit :=
  (setupAndStart rng s).thenSync hideLoadingView

/-! ## The Category Source and runs -/

/-- The Category Source as a run sees it: the reply to `GET categories?count=n` and the
reply to the `k`-th `GET category?id=..` of the run (`k` from 0); `none` is a failed
request. -/
structure Source where
  categories : Nat → Option (List ApiCat)
  category : Nat → Nat → Option ApiCategory

/-- How a task ended. -/
inductive Ended (α : Type) where
  | fulfilled (s : App) (a : α)
  | rejected (s : App)
  deriving DecidableEq

/-- Run a task to its end with nothing else running in between: each request is answered
by the source and the task resumed in the state it was suspended in; `k` counts the
category requests made so far. -/
def Susp.run {α : Type} (src : Source) : Susp α → Nat → Ended α
  | .done s a, _ => .fulfilled s a
  | .failed s, _ => .rejected s
  | .awaitCategories s n cont, k => (cont (src.categories n) s).run src k
  | .awaitCategory s c cont, k => (cont (src.category k c) s).run src (k + 1)

/-- The states in which a task is suspended during such a run, in order: what any other
event handler run during a suspension finds. -/
def Susp.suspensions {α : Type} (src : Source) : Susp α → Nat → List App
  | .done _ _, _ => []
  | .failed _, _ => []
  | .awaitCategories s n cont, k => s :: (cont (src.categories n) s).suspensions src k
  | .awaitCategory s c cont, k => s :: (cont (src.category k c) s).suspensions src (k + 1)

/-! ## Observations on a state -/

/-- The clue `categories[c].clues[q]`, `none` when there is none. -/
def clueAt (s : App) (c q : Nat) : Option Clue :=
  match s.categories[c]? with
  | some cat => cat.clues[q]?
  | none => none

/-- The value of `categories[c].clues[q].showing`; `none` is `null` (and stands for a
missing clue as well). -/
def showingAt (s : App) (c q : Nat) : Option String :=
  match clueAt s c q with
  | some clue => clue.showing
  | none => none

/-- The position `(catI, clueI)` that `handleClick` decodes from the id of the clicked
`<td>`: the clue the click is a reveal of. -/
def clickedClue (evt : ClickEvent) (s : App) : Option (Nat × Nat) :=
  match cellAt s.tbody evt.row evt.col with
  | none => none
  | some td =>
    let parts := split td.id '-'
    match parts[0]?, parts[1]? with
    | some catI, some clueI =>
      match arrayIndex catI, arrayIndex clueI with
      | some c, some q => some (c, q)
      | _, _ => none
    | _, _ => none

/-- What `handleClick` does once it has read `clue` at `categories[c].clues[q]`: the three
branches on `clue.showing`. -/
def reveal (evt : ClickEvent) (s : App) (c q : Nat) (clue : Clue) : App :=
  if !truthy clue.showing then
    { s with
      categories := setShowingAt s.categories c q "question"
      tbody := setHtml (cellId (toString c) (toString q)) clue.question s.tbody }
  else if clue.showing = some "question" then
    { s with
      categories := setShowingAt s.categories c q "answer"
      tbody := setHtml (cellId (toString c) (toString q)) clue.answer
        (targetAddClass evt "bg-success" s.tbody) }
  else s

/-- The value `handleClick` leaves in `clue.showing`, as a function of the value it found. -/
def advance (v : Option String) : Option String :=
  if !truthy v then some "question"
  else if v = some "question" then some "answer"
  else v

/-- The values `categories[c].clues[q].showing` has before a sequence of clicks and after
each of them. -/
def showingTrace (s : App) (evts : List ClickEvent) (c q : Nat) : List (Option String) :=
  (List.scanl click s evts).map fun t => showingAt t c q

/-- Every body cell carries the id `fillTable` gives the cell of its row and column. -/
def Addressed (tbody : List (List Td)) : Prop :=
  ∀ r k td, cellAt tbody r k = some td → td.id = cellId (toString k) (toString r)

/-- The values `showing` takes in order of first appearance: `none`, `"question"`,
`"answer"`. -/
def revealOrder : List (Option String) :=
  [none, some "question", some "answer"]

/-- The categories `fetchCategory(id_1), ..., fetchCategory(id_n)` of the spec, for the
identifiers in order: the `i`-th is what `getCategory` builds from the reply to the `i`-th
request; `none` when a request fails. -/
def fetchEach (src : Source) (rng : Nat → Nat → Nat) : Nat → List Nat → Option (List Category)
  | _, [] => some []
  | i, catId :: rest =>
    match src.category i catId, fetchEach src rng (i + 1) rest with
    | some data, some cats => some (categoryOf (rng (i + 1)) data :: cats)
    | _, _ => none

/-- The categories a run has fetched when it stops asking: all of them, or those before the
first request that fails. -/
def fetchedPrefix (src : Source) (rng : Nat → Nat → Nat) : Nat → List Nat → List Category
  | _, [] => []
  | i, catId :: rest =>
    match src.category i catId with
    | some data => categoryOf (rng (i + 1)) data :: fetchedPrefix src rng (i + 1) rest
    | none => []

/-- The state a task ended in, when it ended without throwing. -/
def Ended.fulfilledState {α : Type} : Ended α → Option App
  | .fulfilled s _ => some s
  | .rejected _ => none

/-! ## A sample game -/

/-- A pool of `count` categories, with the identifiers 1 to `count`. -/
def demoPool (count : Nat) : List ApiCat :=
  (List.range count).map fun i => { id := i + 1 }

/-- A category of seven clues whose questions hold markup. -/
def demoCategory (catId : Nat) : ApiCategory :=
  { title := "Category " ++ toString catId
    clues := (List.range 7).map fun j =>
      { question := "<i>Clue " ++ toString j ++ "</i> of category " ++ toString catId
        answer := "Answer " ++ toString j ++ " of category " ++ toString catId } }

/-- A Category Source that answers every request, with `demoPool` and `demoCategory`. -/
def demoSource : Source :=
  { categories := fun count => some (demoPool count)
    category := fun _ catId => some (demoCategory catId) }

/-- Some outcome of the random draws. -/
def demoRng : Nat → Nat → Nat :=
  fun i j => 7 * i + 3 * j + 2

/-- The page as loaded: no categories, an empty table. -/
def demoStart : App :=
  { categories := [], thead := [], tbody := [], spinners := 0, startClass := "", startText := "Start" }

/-- The page after one run of `setupAndStart` against `demoSource`. -/
def demoBoard : App :=
  (((setupAndStart demoRng demoStart).run demoSource 0).fulfilledState).getD demoStart

/-- The value a task returned, when it ended without throwing. -/
def Ended.value {α : Type} : Ended α → Option α
  | .fulfilled _ a => some a
  | .rejected _ => none

/-- The clue `getCategory` makes of a clue record of the reply. -/
def clueOf (x : ApiClue) : Clue :=
  { question := x.question, answer := x.answer, showing := none }

/-- A Category Source whose pool lists one identifier twice and whose categories hold one
clue twice. -/
def repeatSource : Source :=
  { categories := fun _ => some [{ id := 7 }, { id := 7 }, { id := 8 }]
    category := fun _ _ =>
      some { title := "Twins", clues := [{ question := "Q", answer := "A" },
                                         { question := "Q", answer := "A" }] } }

/-- A Category Source like `demoSource` whose category `catId` has `catId % 7` clues. -/
def thinSource : Source :=
  { categories := fun count => some (demoPool count)
    category := fun _ catId =>
      some
        { title := "Category " ++ toString catId
          clues := (List.range (catId % 7)).map fun j =>
            { question := "Clue " ++ toString j ++ " of category " ++ toString catId
              answer := "Answer " ++ toString j ++ " of category " ++ toString catId } } }

/-- The page after one run of `setupAndStart` against `thinSource`. -/
def thinBoard : App :=
  (((setupAndStart demoRng demoStart).run thinSource 0).fulfilledState).getD demoStart

/-! # Theorems -/

/-! ## Sampling -/

theorem cons_set_perm {α : Type} (x b : α) :
    ∀ (xs : List α) (j : Nat), xs[j]? = some b → (b :: xs.set j x).Perm (x :: xs)
  | [], j, h => by simp at h
  | y :: ys, 0, h => by
    simp at h
    subst h
    simpa using List.Perm.swap x y ys
  | y :: ys, j + 1, h => by
    simp at h
    have ih := cons_set_perm x b ys j h
    simp only [List.set_cons_succ]
    exact (List.Perm.swap y b _).trans ((ih.cons y).trans (List.Perm.swap x y ys))

theorem swap_perm {α : Type} : ∀ (arr : List α) (i j : Nat), (swap arr i j).Perm arr
  | [], i, j => by simp [swap]
  | x :: xs, 0, 0 => by
    simp [swap]
  | x :: xs, 0, j + 1 => by
    simp only [swap, List.getElem?_cons_zero, List.getElem?_cons_succ]
    cases h : xs[j]? with
    | none => simp
    | some b => simpa using cons_set_perm x b xs j h
  | x :: xs, i + 1, 0 => by
    simp only [swap, List.getElem?_cons_zero, List.getElem?_cons_succ]
    cases h : xs[i]? with
    | none => simp
    | some a => simpa using cons_set_perm x a xs i h
  | x :: xs, i + 1, j + 1 => by
    have ih := swap_perm xs i j
    simp only [swap, List.getElem?_cons_succ] at ih ⊢
    cases hi : xs[i]? with
    | none => simp
    | some a =>
      cases hj : xs[j]? with
      | none => simp
      | some b =>
        simp only [hi, hj] at ih
        simpa using ih

theorem shuffleLoop_perm {α : Type} (rand : Nat → Nat) (lastIndex : Nat) :
    ∀ (todo index : Nat) (arr : List α), (shuffleLoop rand lastIndex todo index arr).Perm arr
  | 0, _, arr => List.Perm.refl arr
  | todo + 1, index, arr =>
    (shuffleLoop_perm rand lastIndex todo (index + 1) _).trans (swap_perm arr _ index)

theorem sampleSize_subperm {α : Type} (rand : Nat → Nat) (arr : List α) (n : Nat) :
    List.Subperm (sampleSize rand arr n) arr :=
  (List.take_sublist _ _).subperm.trans (shuffleLoop_perm rand _ _ 0 arr).subperm

theorem sampleSize_length {α : Type} (rand : Nat → Nat) (arr : List α) (n : Nat) :
    (sampleSize rand arr n).length = min n arr.length := by
  simp [sampleSize, shuffleSelf, (shuffleLoop_perm rand (arr.length - 1) (min n arr.length) 0 arr).length_eq]

/-! ## Cell identifiers -/

theorem digitChar_isDigit : ∀ d, d < 10 → (Nat.digitChar d).isDigit = true := by decide

theorem digitChar_value : ∀ d, d < 10 → (Nat.digitChar d).toNat - 48 = d := by decide

theorem digitChar_ne_dash : ∀ d, d < 10 → Nat.digitChar d ≠ '-' := by decide

theorem parseDigits_toDigitsCore :
    ∀ (fuel n : Nat) (ds : List Char), n < fuel →
      parseDigits (Nat.toDigitsCore 10 fuel n ds) 0 = parseDigits ds n
  | 0, n, ds, h => by omega
  | fuel + 1, n, ds, h => by
    have hd : n % 10 < 10 := Nat.mod_lt _ (by decide)
    have step : parseDigits (Nat.digitChar (n % 10) :: ds) (n / 10) = parseDigits ds n := by
      simp only [parseDigits, digitChar_isDigit _ hd, digitChar_value _ hd, if_true]
      congr 1
      omega
    simp only [Nat.toDigitsCore]
    split
    · rename_i h0
      have hn : n = n % 10 := by omega
      simp only [parseDigits, digitChar_isDigit _ hd, digitChar_value _ hd, if_true]
      congr 1
      omega
    · rw [parseDigits_toDigitsCore fuel (n / 10) _ (by omega), step]

theorem toDigitsCore_no_dash :
    ∀ (fuel n : Nat) (ds : List Char), '-' ∉ ds → '-' ∉ Nat.toDigitsCore 10 fuel n ds
  | 0, n, ds, h => by simpa [Nat.toDigitsCore] using h
  | fuel + 1, n, ds, h => by
    have hd : n % 10 < 10 := Nat.mod_lt _ (by decide)
    have h1 : '-' ∉ Nat.digitChar (n % 10) :: ds := by
      simp only [List.mem_cons, not_or]
      exact ⟨fun e => digitChar_ne_dash _ hd e.symm, h⟩
    simp only [Nat.toDigitsCore]
    split
    · exact h1
    · exact toDigitsCore_no_dash fuel (n / 10) _ h1

theorem toDigitsCore_ne_nil :
    ∀ (fuel n : Nat) (ds : List Char), ds ≠ [] → Nat.toDigitsCore 10 fuel n ds ≠ []
  | 0, n, ds, h => by simpa [Nat.toDigitsCore] using h
  | fuel + 1, n, ds, h => by
    simp only [Nat.toDigitsCore]
    split
    · simp
    · exact toDigitsCore_ne_nil fuel (n / 10) _ (by simp)

theorem toString_data (n : Nat) : (toString n).data = Nat.toDigits 10 n := rfl

theorem toString_no_dash (n : Nat) : '-' ∉ (toString n).data := by
  rw [toString_data]
  exact toDigitsCore_no_dash _ _ _ (by simp)

theorem arrayIndex_toString (n : Nat) : arrayIndex (toString n) = some n := by
  have hp : parseDigits (toString n).data 0 = some n := by
    rw [toString_data, Nat.toDigits, parseDigits_toDigitsCore _ _ _ (Nat.lt_succ_self n)]
    rfl
  unfold arrayIndex
  split
  · rename_i h
    rw [toString_data] at h
    rcases Nat.lt_or_ge n 10 with h10 | h10
    · simp [Nat.toDigits, Nat.toDigitsCore, Nat.div_eq_of_lt h10] at h
    · exact absurd h (by
        unfold Nat.toDigits Nat.toDigitsCore
        simp only []
        split
        · simp
        · exact toDigitsCore_ne_nil _ _ _ (by simp))
  · simp [hp]

theorem arrayIndex_eq_some {key : String} {n : Nat} (h : arrayIndex key = some n) :
    key = toString n := by
  unfold arrayIndex at h
  split at h
  · simp at h
  · split at h
    · split at h
      · rename_i heq
        simp only [Option.some.injEq] at h
        rw [← h, heq]
      · simp at h
    · simp at h


theorem splitChars_no_sep (sep : Char) : ∀ (b : List Char), sep ∉ b → splitChars sep b = [b]
  | [], _ => rfl
  | c :: cs, h => by
    simp only [List.mem_cons, not_or] at h
    have hc : c ≠ sep := fun e => h.1 e.symm
    simp [splitChars, hc, splitChars_no_sep sep cs h.2]

theorem splitChars_append (sep : Char) (b : List Char) :
    ∀ (a : List Char), sep ∉ a → splitChars sep (a ++ sep :: b) = a :: splitChars sep b
  | [], _ => by simp [splitChars]
  | c :: cs, h => by
    simp only [List.mem_cons, not_or] at h
    have hc : c ≠ sep := fun e => h.1 e.symm
    simp [splitChars, hc, splitChars_append sep b cs h.2]

theorem split_cellId (c q : Nat) :
    split (cellId (toString c) (toString q)) '-' = [toString c, toString q] := by
  have hd : (cellId (toString c) (toString q)).data
      = (toString c).data ++ '-' :: (toString q).data := by
    simp [cellId, String.data_append]
  simp only [split, hd, splitChars_append '-' _ _ (toString_no_dash c),
    splitChars_no_sep '-' _ (toString_no_dash q), List.map_cons, List.map_nil]

theorem cellId_injective {c q c1 q1 : Nat}
    (h : cellId (toString c) (toString q) = cellId (toString c1) (toString q1)) :
    c = c1 ∧ q = q1 := by
  have hs := congrArg (fun id => split id '-') h
  simp only [split_cellId] at hs
  simp only [List.cons.injEq, and_true] at hs
  have h1 := congrArg arrayIndex hs.1
  have h2 := congrArg arrayIndex hs.2
  simp only [arrayIndex_toString, Option.some.injEq] at h1 h2
  exact ⟨h1, h2⟩


/-! ## `handleClick` -/

theorem getKey_toString {α : Type} (xs : List α) (n : Nat) : getKey xs (toString n) = xs[n]? := by
  simp [getKey, arrayIndex_toString]

theorem getKey_eq_none {α : Type} (xs : List α) {key : String} (h : arrayIndex key = none) :
    getKey xs key = none := by
  simp [getKey, h]

theorem setShowing_toString (cats : List Category) (c q : Nat) (v : String) :
    setShowing cats (toString c) (toString q) v = setShowingAt cats c q v := by
  simp [setShowing, arrayIndex_toString]

/-- The handler reads the clue its `clickedClue` names and takes one of the three branches;
it throws exactly when the click names no clue. -/
theorem handleClick_eq (evt : ClickEvent) (s : App) :
    handleClick evt s =
      match clickedClue evt s with
      | none => none
      | some (c, q) =>
        match clueAt s c q with
        | none => none
        | some clue => some (reveal evt s c q clue) := by
  unfold handleClick clickedClue
  cases cellAt s.tbody evt.row evt.col with
  | none => rfl
  | some td =>
    simp only []
    cases (split td.id '-')[0]? with
    | none => rfl
    | some catI =>
      cases (split td.id '-')[1]? with
      | none => rfl
      | some clueI =>
        simp only []
        cases hc : arrayIndex catI with
        | none => simp [getKey_eq_none _ hc]
        | some c =>
          have e1 := arrayIndex_eq_some hc
          subst e1
          cases hq : arrayIndex clueI with
          | none =>
            simp only [getKey_toString]
            cases s.categories[c]? with
            | none => rfl
            | some cat => simp [getKey_eq_none _ hq]
          | some q =>
            have e2 := arrayIndex_eq_some hq
            subst e2
            simp only [getKey_toString, clueAt, setShowing_toString]
            cases s.categories[c]? with
            | none => rfl
            | some cat =>
              simp only []
              cases cat.clues[q]? with
              | none => rfl
              | some clue =>
                simp only [reveal]
                split
                · rfl
                · split <;> rfl

theorem clueAt_setShowingAt (s : App) (tb : List (List Td)) (c q : Nat) (v : String) (c1 q1 : Nat) :
    clueAt { s with categories := setShowingAt s.categories c q v, tbody := tb } c1 q1 =
      if c1 = c ∧ q1 = q then (clueAt s c q).map (fun clue => { clue with showing := some v })
      else clueAt s c1 q1 := by
  simp only [clueAt, setShowingAt, List.getElem?_modify]
  by_cases hc : c = c1
  · subst hc
    cases s.categories[c]? with
    | none => simp
    | some cat =>
      simp only [Option.map_eq_map, Option.map_some', if_true, List.getElem?_modify, true_and]
      by_cases hq : q = q1
      · subst hq
        cases cat.clues[q]? <;> simp
      · have hq1 : ¬ q1 = q := fun e => hq e.symm
        cases cat.clues[q1]? <;> simp [hq, hq1]
  · have hc1 : ¬ c1 = c := fun e => hc e.symm
    cases s.categories[c1]? <;> simp [hc, hc1]

/-- The clue at `(c1, q1)` after a reveal of the clue at `(c, q)`. -/
theorem clueAt_reveal (evt : ClickEvent) (s : App) (c q : Nat) (clue : Clue)
    (h : clueAt s c q = some clue) (c1 q1 : Nat) :
    clueAt (reveal evt s c q clue) c1 q1 =
      if c1 = c ∧ q1 = q then
        some { clue with showing := advance clue.showing }
      else clueAt s c1 q1 := by
  unfold reveal advance
  cases ht : truthy clue.showing with
  | false => simp [clueAt_setShowingAt, h]
  | true =>
    by_cases h2 : clue.showing = some "question"
    · simp [h2, clueAt_setShowingAt, h]
    · simp only [Bool.not_true, Bool.false_eq_true, if_false, h2]
      split
      · rename_i hcq
        rw [hcq.1, hcq.2, h]
      · rfl

/-! ## The table body -/

/-- The cell `.html(msg)` gives for a cell. -/
theorem setHtmlRow_cases (id msg : String) :
    ∀ tr : List Td,
      (setHtmlRow id msg tr = none ∧ ∀ (k : Nat) (td : Td), tr[k]? = some td → td.id ≠ id) ∨
      (∃ (j : Nat) (td : Td) (tr1 : List Td),
        tr[j]? = some td ∧ td.id = id ∧ setHtmlRow id msg tr = some tr1 ∧
        ∀ k : Nat, tr1[k]? = if k = j then some { td with html := msg, nested := [] } else tr[k]?)
  | [] => Or.inl ⟨rfl, by simp⟩
  | t :: ts => by
    by_cases ht : t.id = id
    · refine Or.inr ⟨0, t, { t with html := msg, nested := [] } :: ts, by simp, ht, ?_, ?_⟩
      · simp [setHtmlRow, ht]
      · intro k
        cases k <;> simp
    · rcases setHtmlRow_cases id msg ts with ⟨hn, hall⟩ | ⟨j, td, tr1, hj, hid, hs, hk⟩
      · refine Or.inl ⟨by simp [setHtmlRow, ht, hn], ?_⟩
        intro k td hk
        cases k with
        | zero =>
          simp only [List.getElem?_cons_zero, Option.some.injEq] at hk
          subst hk
          exact ht
        | succ k => exact hall k td (by simpa using hk)
      · refine Or.inr ⟨j + 1, td, t :: tr1, by simpa using hj, hid, by simp [setHtmlRow, ht, hs], ?_⟩
        intro k
        cases k with
        | zero => simp
        | succ k => simpa using hk k

theorem setHtml_cases (id msg : String) :
    ∀ tb : List (List Td),
      (setHtml id msg tb = tb ∧ ∀ r k td, cellAt tb r k = some td → td.id ≠ id) ∨
      (∃ r j td, cellAt tb r j = some td ∧ td.id = id ∧
        ∀ r1 k1, cellAt (setHtml id msg tb) r1 k1 =
          if r1 = r ∧ k1 = j then some { td with html := msg, nested := [] }
          else cellAt tb r1 k1)
  | [] => Or.inl ⟨rfl, by simp [cellAt]⟩
  | tr :: trs => by
    rcases setHtmlRow_cases id msg tr with ⟨hn, hall⟩ | ⟨j, td, tr1, hj, hid, hs, hk⟩
    · rcases setHtml_cases id msg trs with ⟨he, hall2⟩ | ⟨r, j, td, hc, hid, hk⟩
      · refine Or.inl ⟨by simp [setHtml, hn, he], ?_⟩
        intro r k td h
        cases r with
        | zero => exact hall k td (by simpa [cellAt] using h)
        | succ r => exact hall2 r k td (by simpa [cellAt] using h)
      · refine Or.inr ⟨r + 1, j, td, by simpa [cellAt] using hc, hid, ?_⟩
        intro r1 k1
        cases r1 with
        | zero => simp [setHtml, hn, cellAt]
        | succ r1 =>
          have := hk r1 k1
          simpa [setHtml, hn, cellAt] using this
    · refine Or.inr ⟨0, j, td, by simpa [cellAt] using hj, hid, ?_⟩
      intro r1 k1
      cases r1 with
      | zero => simpa [setHtml, hs, cellAt] using hk k1
      | succ r1 => simp [setHtml, hs, cellAt]

/-- Replacing content by id leaves every cell of another id as it was. -/
theorem cellAt_setHtml_of_ne (id msg : String) (tb : List (List Td)) {r k : Nat} {td : Td}
    (h : cellAt tb r k = some td) (hne : td.id ≠ id) :
    cellAt (setHtml id msg tb) r k = some td := by
  rcases setHtml_cases id msg tb with ⟨he, _⟩ | ⟨r0, j, td0, hc, hid, hk⟩
  · rw [he, h]
  · rw [hk]
    split
    · rename_i hrk
      rw [hrk.1, hrk.2, hc] at h
      simp only [Option.some.injEq] at h
      subst h
      exact absurd hid hne
    · exact h

/-- Replacing content by id changes no id, and no cell other than by a new content. -/
theorem cellAt_setHtml (id msg : String) (tb : List (List Td)) (r k : Nat) :
    cellAt (setHtml id msg tb) r k = cellAt tb r k ∨
    ∃ td, cellAt tb r k = some td ∧ td.id = id ∧
      cellAt (setHtml id msg tb) r k = some { td with html := msg, nested := [] } := by
  rcases setHtml_cases id msg tb with ⟨he, _⟩ | ⟨r0, j, td0, hc, hid, hk⟩
  · exact Or.inl (by rw [he])
  · by_cases hrk : r = r0 ∧ k = j
    · refine Or.inr ⟨td0, by rw [hrk.1, hrk.2, hc], hid, ?_⟩
      rw [hk, if_pos hrk]
    · exact Or.inl (by rw [hk, if_neg hrk])

/-- Replacing content by id hits the cell that has the id when no other cell has it. -/
theorem cellAt_setHtml_of_unique (id msg : String) (tb : List (List Td)) {r k : Nat} {td : Td}
    (h : cellAt tb r k = some td) (hid : td.id = id)
    (huniq : ∀ r1 k1 td1, cellAt tb r1 k1 = some td1 → td1.id = id → r1 = r ∧ k1 = k) :
    cellAt (setHtml id msg tb) r k = some { td with html := msg, nested := [] } := by
  rcases setHtml_cases id msg tb with ⟨_, hall⟩ | ⟨r0, j, td0, hc, hid0, hk⟩
  · exact absurd hid (hall r k td h)
  · have hrk := huniq r0 j td0 hc hid0
    rw [hrk.1, hrk.2, h] at hc
    simp only [Option.some.injEq] at hc
    subst hc
    rw [hk, if_pos ⟨hrk.1.symm, hrk.2.symm⟩]

theorem cellAt_targetAddClass (evt : ClickEvent) (c : String) (tb : List (List Td)) (r k : Nat) :
    cellAt (targetAddClass evt c tb) r k =
      (cellAt tb r k).map fun td =>
        if r = evt.row ∧ k = evt.col then
          (if evt.onTd then { td with classes := classListAdd td.classes c }
           else { td with nested := classListAdd td.nested c })
        else td := by
  simp only [cellAt, targetAddClass, List.getElem?_modify]
  by_cases hr : evt.row = r
  · subst hr
    cases tb[evt.row]? with
    | none => simp
    | some tr =>
      simp only [Option.map_eq_map, Option.map_some', if_true, List.getElem?_modify, true_and]
      by_cases hk : evt.col = k
      · subst hk
        cases tr[evt.col]? <;> simp
      · have hk1 : ¬ k = evt.col := fun e => hk e.symm
        cases tr[k]? <;> simp [hk, hk1]
  · have hr1 : ¬ r = evt.row := fun e => hr e.symm
    cases tb[r]? <;> simp [hr, hr1]

/-! ## Reveal: frame -/

theorem map_setShowingAt {β : Type} (f : Category → β)
    (hf : ∀ (cat : Category) (clues : List Clue), clues.length = cat.clues.length →
      f { cat with clues := clues } = f cat)
    (cats : List Category) (c q : Nat) (v : String) :
    (setShowingAt cats c q v).map f = cats.map f := by
  apply List.ext_getElem?
  intro i
  simp only [setShowingAt, List.getElem?_map, List.getElem?_modify]
  cases cats[i]? with
  | none => rfl
  | some cat =>
    simp only [Option.map_eq_map, Option.map_some', Option.some.injEq]
    split
    · exact hf cat _ (by simp)
    · rfl

theorem reveal_shape (evt : ClickEvent) (s : App) (c q : Nat) (clue : Clue) :
    (reveal evt s c q clue).categories.map (fun cat => (cat.title, cat.clues.length))
        = s.categories.map (fun cat => (cat.title, cat.clues.length)) ∧
      (reveal evt s c q clue).thead = s.thead ∧
      (reveal evt s c q clue).spinners = s.spinners ∧
      (reveal evt s c q clue).startClass = s.startClass ∧
      (reveal evt s c q clue).startText = s.startText := by
  have hm := fun v => map_setShowingAt (fun cat => (cat.title, cat.clues.length))
    (fun cat clues h => by simp [h]) s.categories c q v
  unfold reveal
  split
  · exact ⟨hm _, rfl, rfl, rfl, rfl⟩
  · split
    · exact ⟨hm _, rfl, rfl, rfl, rfl⟩
    · exact ⟨rfl, rfl, rfl, rfl, rfl⟩

/-- The body after a reveal, cell by cell. -/
theorem reveal_tbody (evt : ClickEvent) (s : App) (c q : Nat) (clue : Clue) :
    (reveal evt s c q clue).tbody = s.tbody ∨
    (reveal evt s c q clue).tbody
      = setHtml (cellId (toString c) (toString q)) clue.question s.tbody ∨
    (reveal evt s c q clue).tbody
      = setHtml (cellId (toString c) (toString q)) clue.answer
          (targetAddClass evt "bg-success" s.tbody) := by
  unfold reveal
  split
  · exact Or.inr (Or.inl rfl)
  · split
    · exact Or.inr (Or.inr rfl)
    · exact Or.inl rfl

/-- A click that reads the clue at `(c, q)` landed on a cell whose id is not the id of any
other position. -/
theorem clickedClue_id {evt : ClickEvent} {s : App} {c q : Nat} {td : Td}
    (h : clickedClue evt s = some (c, q)) (htd : cellAt s.tbody evt.row evt.col = some td)
    {c2 q2 : Nat} (hid : td.id = cellId (toString c2) (toString q2)) : c2 = c ∧ q2 = q := by
  unfold clickedClue at h
  simp only [htd, hid, split_cellId, List.getElem?_cons_zero, List.getElem?_cons_succ,
    arrayIndex_toString, Option.some.injEq, Prod.mk.injEq] at h
  exact h

/-- Every cell that carries the id of another position is left as it was by a reveal. -/
theorem reveal_other_cell {evt : ClickEvent} {s : App} {c q : Nat} (clue : Clue)
    (h : clickedClue evt s = some (c, q)) {c2 q2 : Nat} (hne : (c2, q2) ≠ (c, q))
    {r k : Nat} {td : Td} (htd : cellAt s.tbody r k = some td)
    (hid : td.id = cellId (toString c2) (toString q2)) :
    cellAt (reveal evt s c q clue).tbody r k = some td := by
  have hidne : td.id ≠ cellId (toString c) (toString q) := by
    intro e
    have := cellId_injective (hid.symm.trans e)
    exact hne (by rw [this.1, this.2])
  rcases reveal_tbody evt s c q clue with e | e | e
  · rw [e, htd]
  · rw [e]
    exact cellAt_setHtml_of_ne _ _ _ htd hidne
  · rw [e]
    refine cellAt_setHtml_of_ne _ _ _ ?_ hidne
    rw [cellAt_targetAddClass, htd]
    simp only [Option.map_some', Option.some.injEq]
    split
    · rename_i hrk
      rw [hrk.1, hrk.2] at htd
      have := clickedClue_id h htd hid
      exact absurd (by rw [this.1, this.2]) hne
    · rfl

/-- C3. A reveal (a call of `handleClick` that returns) reads one clue, at the position
`(c, q)` decoded from the clicked cell; every clue at another position is left as it was,
`showing` included; no clue changes its question or answer; the titles and the numbers of
categories and of clues per category are unchanged; every cell carrying the id of another
position keeps its content (and all else); the header, the spinner and the start control
are untouched. -/
theorem handleClick_frame (evt : ClickEvent) (s s1 : App) (h : handleClick evt s = some s1) :
    ∃ c q, clickedClue evt s = some (c, q) ∧
      (∀ c2 q2, (c2, q2) ≠ (c, q) → clueAt s1 c2 q2 = clueAt s c2 q2) ∧
      (∀ c2 q2, (clueAt s1 c2 q2).map (fun x => (x.question, x.answer))
          = (clueAt s c2 q2).map (fun x => (x.question, x.answer))) ∧
      s1.categories.map (fun cat => (cat.title, cat.clues.length))
          = s.categories.map (fun cat => (cat.title, cat.clues.length)) ∧
      (∀ c2 q2, (c2, q2) ≠ (c, q) → ∀ r k td, cellAt s.tbody r k = some td →
          td.id = cellId (toString c2) (toString q2) → cellAt s1.tbody r k = some td) ∧
      s1.thead = s.thead ∧ s1.spinners = s.spinners ∧
      s1.startClass = s.startClass ∧ s1.startText = s.startText := by
  rw [handleClick_eq] at h
  cases hc : clickedClue evt s with
  | none => simp [hc] at h
  | some p =>
    obtain ⟨c, q⟩ := p
    simp only [hc] at h
    cases hq : clueAt s c q with
    | none => simp [hq] at h
    | some clue =>
      simp only [hq, Option.some.injEq] at h
      subst h
      have hs := reveal_shape evt s c q clue
      refine ⟨c, q, rfl, ?_, ?_, hs.1, ?_, hs.2⟩
      · intro c2 q2 hne
        rw [clueAt_reveal evt s c q clue hq, if_neg]
        intro e
        exact hne (by rw [e.1, e.2])
      · intro c2 q2
        rw [clueAt_reveal evt s c q clue hq]
        split
        · rename_i e
          rw [e.1, e.2, hq]
          rfl
        · rfl
      · intro c2 q2 hne r k td htd hid
        exact reveal_other_cell clue hc hne htd hid

theorem handleClick_frame_witness :
    handleClick ⟨2, 4, true⟩ (click demoBoard ⟨2, 4, false⟩)
        = some (click (click demoBoard ⟨2, 4, false⟩) ⟨2, 4, true⟩) ∧
      ∃ c q, clickedClue ⟨2, 4, true⟩ (click demoBoard ⟨2, 4, false⟩) = some (c, q) ∧
        (∀ c2 q2, (c2, q2) ≠ (c, q) →
          clueAt (click (click demoBoard ⟨2, 4, false⟩) ⟨2, 4, true⟩) c2 q2
            = clueAt (click demoBoard ⟨2, 4, false⟩) c2 q2) ∧
        (∀ c2 q2,
          (clueAt (click (click demoBoard ⟨2, 4, false⟩) ⟨2, 4, true⟩) c2 q2).map
              (fun x => (x.question, x.answer))
            = (clueAt (click demoBoard ⟨2, 4, false⟩) c2 q2).map
              (fun x => (x.question, x.answer))) ∧
        (click (click demoBoard ⟨2, 4, false⟩) ⟨2, 4, true⟩).categories.map
            (fun cat => (cat.title, cat.clues.length))
          = (click demoBoard ⟨2, 4, false⟩).categories.map
            (fun cat => (cat.title, cat.clues.length)) ∧
        (∀ c2 q2, (c2, q2) ≠ (c, q) → ∀ r k td,
          cellAt (click demoBoard ⟨2, 4, false⟩).tbody r k = some td →
          td.id = cellId (toString c2) (toString q2) →
          cellAt (click (click demoBoard ⟨2, 4, false⟩) ⟨2, 4, true⟩).tbody r k = some td) ∧
        (click (click demoBoard ⟨2, 4, false⟩) ⟨2, 4, true⟩).thead
          = (click demoBoard ⟨2, 4, false⟩).thead ∧
        (click (click demoBoard ⟨2, 4, false⟩) ⟨2, 4, true⟩).spinners
          = (click demoBoard ⟨2, 4, false⟩).spinners ∧
        (click (click demoBoard ⟨2, 4, false⟩) ⟨2, 4, true⟩).startClass
          = (click demoBoard ⟨2, 4, false⟩).startClass ∧
        (click (click demoBoard ⟨2, 4, false⟩) ⟨2, 4, true⟩).startText
          = (click demoBoard ⟨2, 4, false⟩).startText :=
  ⟨by decide, handleClick_frame _ _ _ (by decide)⟩

/-! ## Reveal: the marker -/

/-- C1, at the failing input.  On the board of the sample game the cell `0-0` shows its
question, which holds an `<i>` element, and the clue is at `"question"`.  A click on that
`<i>` element moves the clue to `"answer"` and puts the answer in the cell, and the cell
keeps the classes it was rendered with: `bg-success` went to the `<i>` element, which the
new content replaced.  The same click on the cell itself leaves `bg-success` on the cell. -/
theorem handleClick_nested_target_unmarked :
    showingAt (click demoBoard ⟨0, 0, true⟩) 0 0 = some "question" ∧
    cellAt (click demoBoard ⟨0, 0, true⟩).tbody 0 0
      = some { id := "0-0", classes := ["bg-primary", "text-white"],
               html := "<i>Clue 2</i> of category 3", nested := [] } ∧
    (handleClick ⟨0, 0, false⟩ (click demoBoard ⟨0, 0, true⟩)).map
        (fun s => (showingAt s 0 0, cellAt s.tbody 0 0))
      = some (some "answer",
          some { id := "0-0", classes := ["bg-primary", "text-white"],
                 html := "Answer 2 of category 3", nested := [] }) ∧
    (handleClick ⟨0, 0, true⟩ (click demoBoard ⟨0, 0, true⟩)).map
        (fun s => (showingAt s 0 0, cellAt s.tbody 0 0))
      = some (some "answer",
          some { id := "0-0", classes := ["bg-primary", "text-white", "bg-success"],
                 html := "Answer 2 of category 3", nested := [] }) := by
  decide

/-! ## Reveal: monotone -/

theorem advance_values :
    advance none = some "question" ∧ advance (some "question") = some "answer" ∧
      advance (some "answer") = some "answer" := by
  decide

theorem showingAt_reveal (evt : ClickEvent) (s : App) (c0 q0 : Nat) (clue : Clue)
    (h : clueAt s c0 q0 = some clue) (c q : Nat) :
    showingAt (reveal evt s c0 q0 clue) c q =
      if c = c0 ∧ q = q0 then advance (showingAt s c q) else showingAt s c q := by
  unfold showingAt
  rw [clueAt_reveal evt s c0 q0 clue h]
  by_cases e : c = c0 ∧ q = q0
  · rw [if_pos e, if_pos e, e.1, e.2, h]
  · rw [if_neg e, if_neg e]

/-- One click leaves `showing` of a clue as it was or advances it. -/
theorem showingAt_click (s : App) (evt : ClickEvent) (c q : Nat) :
    showingAt (click s evt) c q = showingAt s c q ∨
      showingAt (click s evt) c q = advance (showingAt s c q) := by
  unfold click
  rw [handleClick_eq]
  cases clickedClue evt s with
  | none => exact Or.inl rfl
  | some p =>
    obtain ⟨c0, q0⟩ := p
    simp only []
    cases h : clueAt s c0 q0 with
    | none => exact Or.inl rfl
    | some clue =>
      simp only [Option.getD_some]
      rw [showingAt_reveal evt s c0 q0 clue h]
      split
      · exact Or.inr rfl
      · exact Or.inl rfl

theorem showingTrace_nil (s : App) (c q : Nat) : showingTrace s [] c q = [showingAt s c q] := rfl

theorem showingTrace_cons (s : App) (evt : ClickEvent) (evts : List ClickEvent) (c q : Nat) :
    showingTrace s (evt :: evts) c q = showingAt s c q :: showingTrace (click s evt) evts c q := by
  simp [showingTrace, List.scanl]

theorem showingTrace_eq_cons (s : App) (evts : List ClickEvent) (c q : Nat) :
    ∃ l, showingTrace s evts c q = showingAt s c q :: l := by
  cases evts with
  | nil => exact ⟨[], rfl⟩
  | cons evt evts => exact ⟨_, showingTrace_cons s evt evts c q⟩

theorem destutter_same (v : Option String) (l : List (Option String)) :
    List.destutter (· ≠ ·) (v :: v :: l) = List.destutter (· ≠ ·) (v :: l) := by
  simp [List.destutter, List.destutter']

theorem destutter_other {v w : Option String} (h : v ≠ w) (l : List (Option String)) :
    List.destutter (· ≠ ·) (v :: w :: l) = v :: List.destutter (· ≠ ·) (w :: l) := by
  simp [List.destutter, List.destutter', h]

theorem trace_from_answer (c q : Nat) :
    ∀ (evts : List ClickEvent) (s : App), showingAt s c q = some "answer" →
      List.destutter (· ≠ ·) (showingTrace s evts c q) = [some "answer"]
  | [], s, h => by simp [showingTrace_nil, h, List.destutter, List.destutter']
  | evt :: evts, s, h => by
    have h1 : showingAt (click s evt) c q = some "answer" := by
      rcases showingAt_click s evt c q with e | e
      · rw [e, h]
      · rw [e, h, advance_values.2.2]
    have ih := trace_from_answer c q evts (click s evt) h1
    obtain ⟨l, hl⟩ := showingTrace_eq_cons (click s evt) evts c q
    rw [showingTrace_cons, hl, h, h1, destutter_same]
    rw [hl, h1] at ih
    exact ih

theorem trace_from_question (c q : Nat) :
    ∀ (evts : List ClickEvent) (s : App), showingAt s c q = some "question" →
      List.destutter (· ≠ ·) (showingTrace s evts c q) = [some "question"] ∨
      List.destutter (· ≠ ·) (showingTrace s evts c q) = [some "question", some "answer"]
  | [], s, h => by simp [showingTrace_nil, h, List.destutter, List.destutter']
  | evt :: evts, s, h => by
    obtain ⟨l, hl⟩ := showingTrace_eq_cons (click s evt) evts c q
    rcases showingAt_click s evt c q with e | e
    · have h1 : showingAt (click s evt) c q = some "question" := by rw [e, h]
      have ih := trace_from_question c q evts (click s evt) h1
      rw [hl, h1] at ih
      rw [showingTrace_cons, hl, h, h1, destutter_same]
      exact ih
    · have h1 : showingAt (click s evt) c q = some "answer" := by
        rw [e, h, advance_values.2.1]
      have ih := trace_from_answer c q evts (click s evt) h1
      rw [hl, h1] at ih
      rw [showingTrace_cons, hl, h, h1, destutter_other (by decide), ih]
      exact Or.inr rfl

theorem trace_from_none (c q : Nat) :
    ∀ (evts : List ClickEvent) (s : App), showingAt s c q = none →
      List.destutter (· ≠ ·) (showingTrace s evts c q) = [none] ∨
      List.destutter (· ≠ ·) (showingTrace s evts c q) = [none, some "question"] ∨
      List.destutter (· ≠ ·) (showingTrace s evts c q) = [none, some "question", some "answer"]
  | [], s, h => by simp [showingTrace_nil, h, List.destutter, List.destutter']
  | evt :: evts, s, h => by
    obtain ⟨l, hl⟩ := showingTrace_eq_cons (click s evt) evts c q
    rcases showingAt_click s evt c q with e | e
    · have h1 : showingAt (click s evt) c q = none := by rw [e, h]
      have ih := trace_from_none c q evts (click s evt) h1
      rw [hl, h1] at ih
      rw [showingTrace_cons, hl, h, h1, destutter_same]
      exact ih
    · have h1 : showingAt (click s evt) c q = some "question" := by
        rw [e, h, advance_values.1]
      have ih := trace_from_question c q evts (click s evt) h1
      rw [hl, h1] at ih
      rw [showingTrace_cons, hl, h, h1, destutter_other (by decide)]
      rcases ih with ih | ih
      · exact Or.inr (Or.inl (by rw [ih]))
      · exact Or.inr (Or.inr (by rw [ih]))

/-- A click that reads a clue whose `showing` is `"answer"` returns and changes nothing. -/
theorem handleClick_answer {evt : ClickEvent} {t : App} {c q : Nat}
    (hc : clickedClue evt t = some (c, q)) (ha : showingAt t c q = some "answer") :
    handleClick evt t = some t := by
  rw [handleClick_eq, hc]
  simp only []
  unfold showingAt at ha
  cases h : clueAt t c q with
  | none => simp [h] at ha
  | some clue =>
    simp only [h] at ha
    simp only [reveal, ha]
    rfl

theorem showingAt_of_hidden {s : App}
    (h0 : ∀ c1 q1 clue, clueAt s c1 q1 = some clue → clue.showing = none) (c q : Nat) :
    showingAt s c q = none := by
  unfold showingAt
  cases h : clueAt s c q with
  | none => rfl
  | some clue => exact h0 c q clue h

theorem hidden_of_forall_mem {s : App}
    (h : ∀ cat ∈ s.categories, ∀ clue ∈ cat.clues, clue.showing = none) :
    ∀ c1 q1 clue, clueAt s c1 q1 = some clue → clue.showing = none := by
  intro c1 q1 clue hc
  unfold clueAt at hc
  cases hcat : s.categories[c1]? with
  | none => simp [hcat] at hc
  | some cat =>
    simp only [hcat] at hc
    exact h cat (List.getElem?_mem hcat) clue (List.getElem?_mem hc)

/-- C2. From a state in which every clue is at `null`, along any sequence of clicks, the
values `showing` of one clue takes, repeats dropped, are a prefix of `null`, `"question"`,
`"answer"`; and in every state of the run a click that reads a clue at `"answer"` returns
with the state, the page included, exactly as it was. -/
theorem reveal_monotone (s : App) (evts : List ClickEvent) (c q : Nat)
    (h0 : ∀ c1 q1 clue, clueAt s c1 q1 = some clue → clue.showing = none) :
    List.destutter (· ≠ ·) (showingTrace s evts c q) <+: revealOrder ∧
    ∀ t ∈ List.scanl click s evts, ∀ evt, clickedClue evt t = some (c, q) →
      showingAt t c q = some "answer" → handleClick evt t = some t := by
  refine ⟨?_, fun t _ evt hc ha => handleClick_answer hc ha⟩
  rcases trace_from_none c q evts s (showingAt_of_hidden h0 c q) with e | e | e
  · rw [e]; decide
  · rw [e]; decide
  · rw [e]; decide

theorem reveal_monotone_witness :
    (∀ c1 q1 clue, clueAt demoBoard c1 q1 = some clue → clue.showing = none) ∧
    List.destutter (· ≠ ·)
        (showingTrace demoBoard
          [⟨0, 0, false⟩, ⟨1, 3, true⟩, ⟨0, 0, true⟩, ⟨0, 0, true⟩, ⟨1, 3, true⟩] 0 0)
      <+: revealOrder ∧
    ∀ t ∈ List.scanl click demoBoard
        [⟨0, 0, false⟩, ⟨1, 3, true⟩, ⟨0, 0, true⟩, ⟨0, 0, true⟩, ⟨1, 3, true⟩],
      ∀ evt, clickedClue evt t = some (0, 0) →
        showingAt t 0 0 = some "answer" → handleClick evt t = some t :=
  ⟨hidden_of_forall_mem (by decide),
    reveal_monotone demoBoard _ 0 0 (hidden_of_forall_mem (by decide))⟩

/-! ## Cell addressing -/

theorem addressed_unique {tb : List (List Td)} (h : Addressed tb) {r k : Nat} {td : Td}
    (_ : cellAt tb r k = some td) :
    ∀ r1 k1 td1, cellAt tb r1 k1 = some td1 →
      td1.id = cellId (toString k) (toString r) → r1 = r ∧ k1 = k := by
  intro r1 k1 td1 h1 hid
  have := cellId_injective ((h r1 k1 td1 h1).symm.trans hid)
  exact ⟨this.2, this.1⟩

theorem clickedClue_of_addressed {s : App} (h : Addressed s.tbody) {r k : Nat} {td : Td}
    (htd : cellAt s.tbody r k = some td) (b : Bool) :
    clickedClue ⟨r, k, b⟩ s = some (k, r) := by
  unfold clickedClue
  simp only [htd, h r k td htd, split_cellId, List.getElem?_cons_zero, List.getElem?_cons_succ,
    arrayIndex_toString]

theorem cellAt_id_click (s : App) (evt : ClickEvent) (r k : Nat) :
    (cellAt (click s evt).tbody r k).map (fun td => td.id)
      = (cellAt s.tbody r k).map (fun td => td.id) := by
  have hset : ∀ id msg tb, (cellAt (setHtml id msg tb) r k).map (fun td => td.id)
      = (cellAt tb r k).map (fun td => td.id) := by
    intro id msg tb
    rcases cellAt_setHtml id msg tb r k with e | ⟨td, h1, _, h2⟩
    · rw [e]
    · rw [h1, h2]
      rfl
  have hadd : ∀ c tb, (cellAt (targetAddClass evt c tb) r k).map (fun td => td.id)
      = (cellAt tb r k).map (fun td => td.id) := by
    intro c tb
    rw [cellAt_targetAddClass]
    cases cellAt tb r k with
    | none => rfl
    | some td =>
      simp only [Option.map_some', Option.some.injEq]
      split
      · split <;> rfl
      · rfl
  unfold click
  rw [handleClick_eq]
  cases clickedClue evt s with
  | none => rfl
  | some p =>
    obtain ⟨c0, q0⟩ := p
    simp only []
    cases clueAt s c0 q0 with
    | none => rfl
    | some clue =>
      simp only [Option.getD_some]
      rcases reveal_tbody evt s c0 q0 clue with e | e | e
      · rw [e]
      · rw [e, hset]
      · rw [e, hset, hadd]

/-- Clicks keep the ids of the body cells. -/
theorem addressed_click {s : App} (h : Addressed s.tbody) (evt : ClickEvent) :
    Addressed (click s evt).tbody := by
  intro r k td htd
  have hid := cellAt_id_click s evt r k
  rw [htd] at hid
  cases h0 : cellAt s.tbody r k with
  | none => simp [h0] at hid
  | some td0 =>
    rw [h0] at hid
    simp only [Option.map_some', Option.some.injEq] at hid
    rw [hid]
    exact h r k td0 h0

/-! ## `fillTable` -/

theorem headerTitles_of_le (cats : List Category) :
    ∀ n, n ≤ cats.length → headerTitles cats n = some ((cats.take n).map fun cat => cat.title)
  | 0, _ => by simp [headerTitles]
  | n + 1, h => by
    have hn : n < cats.length := h
    simp only [headerTitles, headerTitles_of_le cats n (Nat.le_of_lt hn),
      List.getElem?_eq_getElem hn, List.take_succ, List.map_append, Option.toList_some,
      List.map_cons, List.map_nil]

theorem headerTitles_of_lt (cats : List Category) :
    ∀ n, cats.length < n → headerTitles cats n = none
  | 0, h => by omega
  | n + 1, h => by
    have hn : cats[n]? = none := List.getElem?_eq_none (by omega)
    simp only [headerTitles, hn]
    split
    · rename_i h1 h2
      simp at h2
    · rfl

theorem fillTable_of_six (s : App) (h6 : s.categories.length = 6) :
    fillTable s = .returned
      { s with
        thead := [s.categories.map fun cat => headerCell cat.title]
        tbody := (List.range 5).map bodyRow } := by
  have ht := headerTitles_of_le s.categories 6 (by omega)
  rw [List.take_of_length_le (by omega)] at ht
  simp only [fillTable, ht, List.nil_append, List.map_map]
  rfl

theorem fillTable_of_short (s : App) (h : s.categories.length < 6) :
    fillTable s = .threw { s with thead := [] } := by
  simp only [fillTable, headerTitles_of_lt s.categories 6 h]

theorem cellAt_board (q c : Nat) :
    cellAt ((List.range 5).map bodyRow) q c =
      if q < 5 ∧ c < 6 then some (bodyCell q c) else none := by
  unfold cellAt
  by_cases hq : q < 5
  · by_cases hc : c < 6
    · simp [hq, hc, bodyRow, List.getElem?_range]
    · simp [hq, hc, bodyRow]
      omega
  · have hn : ((List.range 5).map bodyRow)[q]? = none :=
      List.getElem?_eq_none (by simp; omega)
    simp [hq, hn]

theorem addressed_board : Addressed ((List.range 5).map bodyRow) := by
  intro r k td h
  rw [cellAt_board] at h
  split at h
  · simp only [Option.some.injEq] at h
    rw [← h]
    rfl
  · simp at h

/-- C7. With six categories in Game State, `fillTable` returns, whatever the table held:
the header is one row of six `<th class="bg-primary text-white col-2">` cells whose texts
are the titles in the order of Game State; the body is five rows of six cells, the cell in
row `q`, column `c` having the id `c-q`, the classes `bg-primary text-white` and the
question-mark icon as content; Game State is not touched.  The table it paints depends on
the titles alone: another state with the same titles (other clues, other `showing`, another
table) gets the same header and body, and painting once more changes nothing. -/
theorem fillTable_renders (s : App) (h6 : s.categories.length = 6) :
    ∃ s1, fillTable s = .returned s1 ∧
      s1.thead
        = [s.categories.map fun cat =>
            ({ classes := "bg-primary text-white col-2", text := cat.title } : Th)] ∧
      s1.thead.map (fun tr => tr.map fun th => th.text)
        = [s.categories.map fun cat => cat.title] ∧
      (∀ tr ∈ s1.thead, tr.length = 6) ∧
      s1.tbody.length = 5 ∧ (∀ tr ∈ s1.tbody, tr.length = 6) ∧
      (∀ q c, q < 5 → c < 6 →
        cellAt s1.tbody q c =
          some { id := toString c ++ "-" ++ toString q, classes := ["bg-primary", "text-white"],
                 html := "<i class=\"fas fa-question-circle\"></i>", nested := [] }) ∧
      s1.categories = s.categories ∧ s1.spinners = s.spinners ∧
      s1.startClass = s.startClass ∧ s1.startText = s.startText ∧
      (∀ s2 : App, s2.categories.map (fun cat => cat.title)
          = s.categories.map (fun cat => cat.title) →
        ∃ s3, fillTable s2 = .returned s3 ∧ s3.thead = s1.thead ∧ s3.tbody = s1.tbody) ∧
      fillTable s1 = .returned s1 := by
  refine ⟨_, fillTable_of_six s h6, rfl, ?_, ?_, ?_, ?_, ?_, rfl, rfl, rfl, rfl, ?_, ?_⟩
  · simp [headerCell, List.map_map, Function.comp_def]
  · intro tr htr
    simp only [List.mem_singleton] at htr
    simp [htr, h6]
  · simp
  · intro tr htr
    simp only [List.mem_map, List.mem_range] at htr
    obtain ⟨q, _, rfl⟩ := htr
    simp [bodyRow]
  · intro q c hq hc
    simp only [cellAt_board, hq, hc, and_self, if_true]
    rfl
  · intro s2 h2
    have h26 : s2.categories.length = 6 := by
      have := congrArg List.length h2
      simpa [h6] using this
    refine ⟨_, fillTable_of_six s2 h26, ?_, rfl⟩
    have : s2.categories.map (fun cat => headerCell cat.title)
        = s.categories.map (fun cat => headerCell cat.title) := by
      have := congrArg (List.map headerCell) h2
      simpa [List.map_map] using this
    simp only [this]
  · rw [fillTable_of_six _ (by simpa using h6)]

theorem fillTable_renders_witness :
    demoBoard.categories.length = 6 ∧
    ∃ s1, fillTable (click demoBoard ⟨0, 0, true⟩) = .returned s1 ∧
      s1.thead
        = [(click demoBoard ⟨0, 0, true⟩).categories.map fun cat =>
            ({ classes := "bg-primary text-white col-2", text := cat.title } : Th)] ∧
      s1.thead.map (fun tr => tr.map fun th => th.text)
        = [(click demoBoard ⟨0, 0, true⟩).categories.map fun cat => cat.title] ∧
      (∀ tr ∈ s1.thead, tr.length = 6) ∧
      s1.tbody.length = 5 ∧ (∀ tr ∈ s1.tbody, tr.length = 6) ∧
      (∀ q c, q < 5 → c < 6 →
        cellAt s1.tbody q c =
          some { id := toString c ++ "-" ++ toString q, classes := ["bg-primary", "text-white"],
                 html := "<i class=\"fas fa-question-circle\"></i>", nested := [] }) ∧
      s1.categories = (click demoBoard ⟨0, 0, true⟩).categories ∧
      s1.spinners = (click demoBoard ⟨0, 0, true⟩).spinners ∧
      s1.startClass = (click demoBoard ⟨0, 0, true⟩).startClass ∧
      s1.startText = (click demoBoard ⟨0, 0, true⟩).startText ∧
      (∀ s2 : App, s2.categories.map (fun cat => cat.title)
          = (click demoBoard ⟨0, 0, true⟩).categories.map (fun cat => cat.title) →
        ∃ s3, fillTable s2 = .returned s3 ∧ s3.thead = s1.thead ∧ s3.tbody = s1.tbody) ∧
      fillTable s1 = .returned s1 :=
  ⟨by decide, fillTable_renders (click demoBoard ⟨0, 0, true⟩) (by decide)⟩

theorem addressed_targetAddClass {tb : List (List Td)} (h : Addressed tb) (evt : ClickEvent)
    (cls : String) : Addressed (targetAddClass evt cls tb) := by
  intro r k td htd
  rw [cellAt_targetAddClass] at htd
  cases h0 : cellAt tb r k with
  | none => simp [h0] at htd
  | some td0 =>
    simp only [h0, Option.map_some', Option.some.injEq] at htd
    have hid : td.id = td0.id := by
      rw [← htd]
      split
      · split <;> rfl
      · rfl
    rw [hid]
    exact h r k td0 h0

/-- The content of a clicked cell of an addressed body after the reveal of its clue. -/
theorem reveal_html {s : App} (h : Addressed s.tbody) {q c : Nat} {td : Td}
    (htd : cellAt s.tbody q c = some td) (b : Bool) (clue : Clue) :
    (cellAt (reveal ⟨q, c, b⟩ s c q clue).tbody q c).map (fun x => x.html) =
      some (if !truthy clue.showing then clue.question
        else if clue.showing = some "question" then clue.answer else td.html) := by
  have hid := h q c td htd
  unfold reveal
  split
  · simp only []
    rw [cellAt_setHtml_of_unique _ _ _ htd hid (addressed_unique h htd)]
    rfl
  · split
    · simp only []
      have h2 := addressed_targetAddClass h ⟨q, c, b⟩ "bg-success"
      have htd2 := cellAt_targetAddClass ⟨q, c, b⟩ "bg-success" s.tbody q c
      rw [htd, Option.map_some'] at htd2
      rw [cellAt_setHtml_of_unique _ _ _ htd2 (h2 q c _ htd2) (addressed_unique h2 htd2)]
      rfl
    · simp only [htd, Option.map_some']

/-- The handler throws, and the click changes nothing, when Game State holds no clue at the
position the clicked cell names. -/
theorem handleClick_no_clue {s : App} (h : Addressed s.tbody) {q c : Nat} {td : Td}
    (htd : cellAt s.tbody q c = some td) (b : Bool) (hclue : clueAt s c q = none) :
    handleClick ⟨q, c, b⟩ s = none ∧ click s ⟨q, c, b⟩ = s := by
  have hn : handleClick ⟨q, c, b⟩ s = none := by
    rw [handleClick_eq, clickedClue_of_addressed h htd b]
    simp only [hclue]
  exact ⟨hn, by simp [click, hn]⟩

/-- C9, amended.  The id `fillTable` gives the cell in column `c` of row `q` is `c-q`;
`handleClick` splits it back into the keys of `c` and `q`, which index `categories` and
`clues` at `c` and `q`; cells at different positions get different ids.  So on a body whose
cells carry these ids (the body `fillTable` paints, and the body after any click) a click on
the cell in row `q`, column `c` reads `categories[c].clues[q]`.  When that clue exists the
click returns: from `null` the clue goes to `"question"` and that same cell shows the
question, from `"question"` it goes to `"answer"` and that same cell shows the answer, and at
`"answer"` nothing changes.  When Game State holds no clue there, the handler throws and
the click changes nothing. -/
theorem cell_addressing (c q : Nat) :
    (bodyCell q c).id = toString c ++ "-" ++ toString q ∧
    split (bodyCell q c).id '-' = [toString c, toString q] ∧
    (∀ cats : List Category, getKey cats (toString c) = cats[c]?) ∧
    (∀ clues : List Clue, getKey clues (toString q) = clues[q]?) ∧
    (∀ c1 q1, (bodyCell q1 c1).id = (bodyCell q c).id → c1 = c ∧ q1 = q) ∧
    (∀ s s1, fillTable s = .returned s1 →
      Addressed s1.tbody ∧ (q < 5 → c < 6 → cellAt s1.tbody q c = some (bodyCell q c))) ∧
    (∀ s evt, Addressed s.tbody → Addressed (click s evt).tbody) ∧
    (∀ (s : App) (b : Bool) (td : Td) (clue : Clue), Addressed s.tbody →
      cellAt s.tbody q c = some td → clueAt s c q = some clue →
      clickedClue ⟨q, c, b⟩ s = some (c, q) ∧
      ∃ s1, handleClick ⟨q, c, b⟩ s = some s1 ∧
        (clue.showing = none →
          clueAt s1 c q = some { clue with showing := some "question" } ∧
          (cellAt s1.tbody q c).map (fun x => x.html) = some clue.question) ∧
        (clue.showing = some "question" →
          clueAt s1 c q = some { clue with showing := some "answer" } ∧
          (cellAt s1.tbody q c).map (fun x => x.html) = some clue.answer) ∧
        (clue.showing = some "answer" → s1 = s)) ∧
    (∀ (s : App) (b : Bool) (td : Td), Addressed s.tbody →
      cellAt s.tbody q c = some td → clueAt s c q = none →
      handleClick ⟨q, c, b⟩ s = none ∧ click s ⟨q, c, b⟩ = s) := by
  refine ⟨rfl, split_cellId c q, fun cats => getKey_toString cats c,
    fun clues => getKey_toString clues q, fun c1 q1 h => cellId_injective h, ?_,
    fun s evt h => addressed_click h evt, ?_,
    fun s b td ha htd hclue => handleClick_no_clue ha htd b hclue⟩
  · intro s s1 hs
    have hb : s1.tbody = (List.range 5).map bodyRow := by
      simp only [fillTable] at hs
      cases ht : headerTitles s.categories 6 with
      | none => simp [ht] at hs
      | some titles =>
        simp only [ht, Ran.returned.injEq] at hs
        rw [← hs]
        rfl
    rw [hb]
    refine ⟨addressed_board, fun hq hc => ?_⟩
    rw [cellAt_board, if_pos ⟨hq, hc⟩]
  · intro s b td clue ha htd hclue
    have hc := clickedClue_of_addressed ha htd b
    have hcl := clueAt_reveal ⟨q, c, b⟩ s c q clue hclue c q
    rw [if_pos ⟨rfl, rfl⟩] at hcl
    have hh := reveal_html ha htd b clue
    refine ⟨hc, reveal ⟨q, c, b⟩ s c q clue, ?_, ?_, ?_, ?_⟩
    · rw [handleClick_eq, hc]
      simp only [hclue]
    · intro h0
      rw [h0] at hcl hh
      exact ⟨by rw [hcl, advance_values.1], by simpa [truthy] using hh⟩
    · intro h0
      rw [h0] at hcl hh
      exact ⟨by rw [hcl, advance_values.2.1], by simpa [truthy] using hh⟩
    · intro h0
      simp only [reveal, h0]
      rfl

theorem cell_addressing_witness :
    Addressed demoBoard.tbody ∧
    cellAt demoBoard.tbody 4 5 = some (bodyCell 4 5) ∧
    clueAt demoBoard 5 4
      = some { question := "<i>Clue 1</i> of category 23", answer := "Answer 1 of category 23",
               showing := none } ∧
    clickedClue ⟨4, 5, false⟩ demoBoard = some (5, 4) ∧
    ∃ s1, handleClick ⟨4, 5, false⟩ demoBoard = some s1 ∧
      ((none : Option String) = none →
        clueAt s1 5 4
          = some { question := "<i>Clue 1</i> of category 23",
                   answer := "Answer 1 of category 23", showing := some "question" } ∧
        (cellAt s1.tbody 4 5).map (fun x => x.html) = some "<i>Clue 1</i> of category 23") ∧
      ((none : Option String) = some "question" →
        clueAt s1 5 4
          = some { question := "<i>Clue 1</i> of category 23",
                   answer := "Answer 1 of category 23", showing := some "answer" } ∧
        (cellAt s1.tbody 4 5).map (fun x => x.html) = some "Answer 1 of category 23") ∧
      ((none : Option String) = some "answer" → s1 = demoBoard) :=
  have ha : Addressed demoBoard.tbody :=
    ((cell_addressing 5 4).2.2.2.2.2.1 demoBoard demoBoard (by decide)).1
  ⟨ha, by decide, by decide,
    (cell_addressing 5 4).2.2.2.2.2.2.2.1 demoBoard false (bodyCell 4 5)
      { question := "<i>Clue 1</i> of category 23", answer := "Answer 1 of category 23",
        showing := none }
      ha (by decide) (by decide)⟩

/-- C9 fails as stated.  After a run against `thinSource` in which no request failed,
`fillTable` has painted the cell `1-0` (row 0, column 1) with its placeholder, the category
in column 1 holds no clue, and a click on that cell makes `handleClick` throw: no clue is
revealed and the cell is not updated. -/
theorem click_on_cell_without_clue :
    ((setupAndStart demoRng demoStart).run thinSource 0).fulfilledState = some thinBoard ∧
    thinBoard.categories.map (fun cat => cat.clues.length) = [3, 0, 4, 1, 5, 2] ∧
    cellAt thinBoard.tbody 0 1
      = some { id := "1-0", classes := ["bg-primary", "text-white"],
               html := "<i class=\"fas fa-question-circle\"></i>", nested := [] } ∧
    clueAt thinBoard 1 0 = none ∧
    handleClick ⟨0, 1, true⟩ thinBoard = none ∧
    click thinBoard ⟨0, 1, true⟩ = thinBoard := by
  decide

/-! ## Runs of `setupAndStart` -/

theorem app_categories_append_nil (s : App) : { s with categories := s.categories ++ [] } = s := by
  simp

theorem pushEach_bind_run {β : Type} (src : Source) (rng : Nat → Nat → Nat)
    (g : Unit → App → Susp β) :
    ∀ (ids : List Nat) (i : Nat) (s : App),
      ((pushEach rng i ids s).bind g).run src i =
        match fetchEach src rng i ids with
        | some cats =>
          (g () { s with categories := s.categories ++ cats }).run src (i + ids.length)
        | none =>
          .rejected { s with categories := s.categories ++ fetchedPrefix src rng i ids }
  | [], i, s => by
    simp only [pushEach, Susp.bind, fetchEach, app_categories_append_nil, List.length_nil,
      Nat.add_zero]
  | catId :: rest, i, s => by
    simp only [pushEach, getCategory, Susp.bind, Susp.run, fetchEach, fetchedPrefix]
    cases hd : src.category i catId with
    | none =>
      simp only [Susp.bind, Susp.run, app_categories_append_nil]
    | some data =>
      simp only [Susp.bind]
      rw [pushEach_bind_run src rng g rest (i + 1)]
      cases fetchEach src rng (i + 1) rest with
      | none => simp only [List.append_assoc, List.singleton_append]
      | some cats =>
        simp only [List.append_assoc, List.singleton_append, List.length_cons]
        rw [Nat.add_assoc, Nat.add_comm 1]

/-- A run of `setupAndStart` with nothing else in between, as a function of the replies. -/
theorem setupAndStart_run (src : Source) (rng : Nat → Nat → Nat) (s : App) :
    (setupAndStart rng s).run src 0 =
      match src.categories 100 with
      | none => .rejected s
      | some pool =>
        match fetchEach src rng 0 (sampleSize (rng 0) (pool.map fun cat => cat.id) 6) with
        | some cats => .fulfilled (fillTable { s with categories := cats }).state ()
        | none =>
          .rejected
            { s with
              categories :=
                fetchedPrefix src rng 0 (sampleSize (rng 0) (pool.map fun cat => cat.id) 6) } := by
  simp only [setupAndStart, getCategoryIds, Susp.bind, Susp.run]
  cases src.categories 100 with
  | none => simp only [Susp.bind, Susp.run]
  | some pool =>
    simp only [Susp.bind]
    rw [pushEach_bind_run]
    cases fetchEach src rng 0 (sampleSize (rng 0) (pool.map fun cat => cat.id) 6) with
    | none => simp only [List.nil_append]
    | some cats => simp only [List.nil_append, Susp.run]

theorem fetchEach_length (src : Source) (rng : Nat → Nat → Nat) :
    ∀ (ids : List Nat) (i : Nat) (cats : List Category),
      fetchEach src rng i ids = some cats → cats.length = ids.length
  | [], i, cats, h => by
    simp only [fetchEach, Option.some.injEq] at h
    subst h
    rfl
  | catId :: rest, i, cats, h => by
    simp only [fetchEach] at h
    cases hd : src.category i catId with
    | none => simp [hd] at h
    | some data =>
      cases hr : fetchEach src rng (i + 1) rest with
      | none => simp [hd, hr] at h
      | some cats1 =>
        simp only [hd, hr, Option.some.injEq] at h
        rw [← h, List.length_cons, fetchEach_length src rng rest (i + 1) cats1 hr, List.length_cons]

/-- The `j`-th category fetched is what `getCategory` builds from the reply to the `j`-th
request, made for the `j`-th identifier. -/
theorem fetchEach_getElem_some (src : Source) (rng : Nat → Nat → Nat) :
    ∀ (ids : List Nat) (i : Nat) (cats : List Category),
      fetchEach src rng i ids = some cats →
      ∀ (j : Nat) (catId : Nat), ids[j]? = some catId →
        ∃ data, src.category (i + j) catId = some data ∧
          cats[j]? = some (categoryOf (rng (i + j + 1)) data)
  | [], i, cats, h, j, catId, hj => by simp at hj
  | id0 :: rest, i, cats, h, j, catId, hj => by
    simp only [fetchEach] at h
    cases hd : src.category i id0 with
    | none => simp [hd] at h
    | some data =>
      cases hr : fetchEach src rng (i + 1) rest with
      | none => simp [hd, hr] at h
      | some cats1 =>
        simp only [hd, hr, Option.some.injEq] at h
        subst h
        cases j with
        | zero =>
          simp only [List.getElem?_cons_zero, Option.some.injEq] at hj
          subst hj
          exact ⟨data, hd, by simp⟩
        | succ j =>
          simp only [List.getElem?_cons_succ] at hj
          obtain ⟨data1, h1, h2⟩ := fetchEach_getElem_some src rng rest (i + 1) cats1 hr j catId hj
          have e : i + 1 + j = i + (j + 1) := by omega
          rw [e] at h1 h2
          exact ⟨data1, h1, by rw [List.getElem?_cons_succ, h2]⟩

/-- When every request is answered, every category is fetched. -/
theorem fetchEach_of_answers (src : Source) (rng : Nat → Nat → Nat) :
    ∀ (ids : List Nat) (i : Nat),
      (∀ j catId, ids[j]? = some catId → (src.category (i + j) catId).isSome) →
      (fetchEach src rng i ids).isSome
  | [], i, _ => rfl
  | id0 :: rest, i, h => by
    have h0 := h 0 id0 (by simp)
    have hr := fetchEach_of_answers src rng rest (i + 1) (fun j catId hj => by
      have := h (j + 1) catId (by simpa using hj)
      rw [show i + 1 + j = i + (j + 1) by omega]
      exact this)
    simp only [Nat.add_zero] at h0
    simp only [fetchEach]
    cases hd : src.category i id0 with
    | none => simp [hd] at h0
    | some data =>
      cases hf : fetchEach src rng (i + 1) rest with
      | none => simp [hf] at hr
      | some cats => rfl

theorem fillTable_state_categories (s : App) : (fillTable s).state.categories = s.categories := by
  simp only [fillTable]
  cases headerTitles s.categories 6 <;> rfl

/-! ## Sampling in `getCategoryIds` and `getCategory` -/

theorem subperm_map {α β : Type} (f : α → β) {l1 l2 : List α} (h : l1.Subperm l2) :
    (l1.map f).Subperm (l2.map f) := by
  obtain ⟨l, hp, hs⟩ := h
  exact ⟨l.map f, hp.map f, hs.map f⟩

theorem nodup_of_subperm {α : Type} {l1 l2 : List α} (h : l1.Subperm l2) (hn : l2.Nodup) :
    l1.Nodup := by
  obtain ⟨l, hp, hs⟩ := h
  exact hp.nodup_iff.mp (hn.sublist hs)

theorem categoryOf_eq (rand : Nat → Nat) (data : ApiCategory) :
    categoryOf rand data
      = { title := data.title, clues := (sampleSize rand data.clues 5).map clueOf } := rfl

/-- C5, amended.  Whatever the reply and the draws, `getCategoryIds` returns identifiers
taken from pairwise distinct positions of the pool (up to order, a sub-list of the pool's
identifiers): each is an identifier of the pool, and they are pairwise distinct when the
pool's identifiers are.  In the same way `getCategory` returns the clues made of records at
pairwise distinct positions of the reply: each is the question and answer of a record of the
reply, and they are pairwise distinct when the records' question-answer pairs are. -/
theorem sampling_distinct_positions (rand : Nat → Nat) (s : App) (src : Source) (k catId : Nat)
    (pool : List ApiCat) (data : ApiCategory)
    (hp : src.categories 100 = some pool) (hd : src.category k catId = some data) :
    (∃ ids, (getCategoryIds rand s).run src k = .fulfilled s ids ∧
      ids.Subperm (pool.map fun cat => cat.id) ∧
      (∀ id ∈ ids, ∃ cat ∈ pool, cat.id = id) ∧
      ((pool.map fun cat => cat.id).Nodup → ids.Nodup)) ∧
    (∃ cat, (getCategory rand catId s).run src k = .fulfilled s cat ∧
      cat.title = data.title ∧
      cat.clues.Subperm (data.clues.map clueOf) ∧
      (∀ clue ∈ cat.clues, ∃ x ∈ data.clues, clue = clueOf x) ∧
      ((data.clues.map clueOf).Nodup → cat.clues.Nodup)) := by
  constructor
  · have hsub := sampleSize_subperm rand (pool.map fun cat => cat.id) 6
    refine ⟨sampleSize rand (pool.map fun cat => cat.id) 6, ?_, hsub, ?_, nodup_of_subperm hsub⟩
    · simp only [getCategoryIds, Susp.run, hp]
    · intro id hid
      have := hsub.subset hid
      simpa using this
  · have hsub := subperm_map clueOf (sampleSize_subperm rand data.clues 5)
    refine ⟨categoryOf rand data, ?_, rfl, hsub, ?_, nodup_of_subperm hsub⟩
    · simp only [getCategory, Susp.run, hd]
    · intro clue hclue
      have := hsub.subset hclue
      simp only [List.mem_map] at this
      obtain ⟨x, hx, e⟩ := this
      exact ⟨x, hx, e.symm⟩

theorem sampling_distinct_positions_witness :
    demoSource.categories 100 = some (demoPool 100) ∧
    demoSource.category 2 11 = some (demoCategory 11) ∧
    (∃ ids, (getCategoryIds (demoRng 0) demoStart).run demoSource 2 = .fulfilled demoStart ids ∧
      ids.Subperm ((demoPool 100).map fun cat => cat.id) ∧
      (∀ id ∈ ids, ∃ cat ∈ demoPool 100, cat.id = id) ∧
      (((demoPool 100).map fun cat => cat.id).Nodup → ids.Nodup)) ∧
    (∃ cat, (getCategory (demoRng 0) 11 demoStart).run demoSource 2 = .fulfilled demoStart cat ∧
      cat.title = (demoCategory 11).title ∧
      cat.clues.Subperm ((demoCategory 11).clues.map clueOf) ∧
      (∀ clue ∈ cat.clues, ∃ x ∈ (demoCategory 11).clues, clue = clueOf x) ∧
      (((demoCategory 11).clues.map clueOf).Nodup → cat.clues.Nodup)) :=
  ⟨rfl, rfl,
    sampling_distinct_positions (demoRng 0) demoStart demoSource 2 11 (demoPool 100)
      (demoCategory 11) rfl rfl⟩

/-- C5 fails as stated: against a pool that lists the identifier 7 twice `getCategoryIds`
returns 7 twice, and against a category that holds one clue twice `getCategory` returns
that clue twice. -/
theorem sampling_repeats :
    ((getCategoryIds (demoRng 0) demoStart).run repeatSource 0).value = some [8, 7, 7] ∧
    ¬ ([8, 7, 7] : List Nat).Nodup ∧
    (((getCategory (demoRng 1) 7 demoStart).run repeatSource 0).value).map (fun cat => cat.clues)
      = some [{ question := "Q", answer := "A", showing := none },
              { question := "Q", answer := "A", showing := none }] ∧
    ¬ ([{ question := "Q", answer := "A", showing := none },
        { question := "Q", answer := "A", showing := none }] : List Clue).Nodup := by
  decide

/-! ## `setupAndStart`: what a run leaves in Game State -/

theorem setupAndStart_fulfilled {src : Source} {rng : Nat → Nat → Nat} {s s1 : App}
    (h : (setupAndStart rng s).run src 0 = .fulfilled s1 ()) :
    ∃ pool cats, src.categories 100 = some pool ∧
      fetchEach src rng 0 (sampleSize (rng 0) (pool.map fun cat => cat.id) 6) = some cats ∧
      s1 = (fillTable { s with categories := cats }).state := by
  rw [setupAndStart_run] at h
  cases hp : src.categories 100 with
  | none => simp [hp] at h
  | some pool =>
    simp only [hp] at h
    cases hf : fetchEach src rng 0 (sampleSize (rng 0) (pool.map fun cat => cat.id) 6) with
    | none => simp [hf] at h
    | some cats =>
      simp only [hf, Ended.fulfilled.injEq, and_true] at h
      exact ⟨pool, cats, rfl, hf, h.symm⟩

theorem categoryOf_clues (rand : Nat → Nat) (data : ApiCategory) :
    (categoryOf rand data).clues.length = min 5 data.clues.length ∧
      ∀ clue ∈ (categoryOf rand data).clues, clue.showing = none := by
  rw [categoryOf_eq]
  refine ⟨by simp [sampleSize_length], ?_⟩
  intro clue h
  simp only [List.mem_map] at h
  obtain ⟨x, _, e⟩ := h
  rw [← e]
  rfl

/-- C4, amended.  After a run of `setupAndStart` in which no request failed, Game State
holds `min 6 p` categories, `p` being the number of categories in the pool's reply; the
`i`-th is built from the reply to the `i`-th category request and holds `min 5 n` clues,
`n` being the number of clues in that reply; every clue is at `null`.  So the grid is 6
by 5 when the pool holds at least six categories and every reply at least five clues. -/
theorem setup_grid_shape (src : Source) (rng : Nat → Nat → Nat) (s s1 : App)
    (h : (setupAndStart rng s).run src 0 = .fulfilled s1 ()) :
    ∃ pool, src.categories 100 = some pool ∧
      s1.categories.length = min 6 pool.length ∧
      (∀ i cat, s1.categories[i]? = some cat →
        ∃ catId data,
          (sampleSize (rng 0) (pool.map fun cat => cat.id) 6)[i]? = some catId ∧
          src.category i catId = some data ∧
          cat.clues.length = min 5 data.clues.length ∧
          ∀ clue ∈ cat.clues, clue.showing = none) ∧
      (6 ≤ pool.length →
        (∀ i catId data, src.category i catId = some data → 5 ≤ data.clues.length) →
        s1.categories.length = 6 ∧ ∀ cat ∈ s1.categories, cat.clues.length = 5) := by
  obtain ⟨pool, cats, hp, hf, hs⟩ := setupAndStart_fulfilled h
  have hcats : s1.categories = cats := by rw [hs, fillTable_state_categories]
  have hlen : cats.length = min 6 pool.length := by
    rw [fetchEach_length src rng _ 0 cats hf, sampleSize_length, List.length_map]
  have hget : ∀ i cat, s1.categories[i]? = some cat →
      ∃ catId data,
        (sampleSize (rng 0) (pool.map fun cat => cat.id) 6)[i]? = some catId ∧
        src.category i catId = some data ∧
        cat.clues.length = min 5 data.clues.length ∧
        ∀ clue ∈ cat.clues, clue.showing = none := by
    intro i cat hi
    rw [hcats] at hi
    have hlt : i < (sampleSize (rng 0) (pool.map fun cat => cat.id) 6).length := by
      rw [← fetchEach_length src rng _ 0 cats hf]
      exact (List.getElem?_eq_some.mp hi).1
    obtain ⟨data, hd, hc⟩ := fetchEach_getElem_some src rng _ 0 cats hf i _
      (List.getElem?_eq_getElem hlt)
    rw [Nat.zero_add] at hd hc
    rw [hi, Option.some.injEq] at hc
    have hcl := categoryOf_clues (rng (i + 1)) data
    rw [← hc] at hcl
    exact ⟨_, data, List.getElem?_eq_getElem hlt, hd, hcl.1, hcl.2⟩
  refine ⟨pool, hp, by rw [hcats, hlen], hget, ?_⟩
  intro h6 h5
  refine ⟨by rw [hcats, hlen]; omega, ?_⟩
  intro cat hcat
  obtain ⟨i, hi⟩ := List.mem_iff_getElem?.mp hcat
  obtain ⟨catId, data, _, hd, hl, _⟩ := hget i cat hi
  have := h5 i catId data hd
  rw [hl]
  omega

theorem setup_grid_shape_witness :
    (setupAndStart demoRng (click demoBoard ⟨0, 0, true⟩)).run demoSource 0
      = .fulfilled demoBoard () ∧
    ∃ pool, demoSource.categories 100 = some pool ∧
      demoBoard.categories.length = min 6 pool.length ∧
      (∀ i cat, demoBoard.categories[i]? = some cat →
        ∃ catId data,
          (sampleSize (demoRng 0) (pool.map fun cat => cat.id) 6)[i]? = some catId ∧
          demoSource.category i catId = some data ∧
          cat.clues.length = min 5 data.clues.length ∧
          ∀ clue ∈ cat.clues, clue.showing = none) ∧
      (6 ≤ pool.length →
        (∀ i catId data, demoSource.category i catId = some data → 5 ≤ data.clues.length) →
        demoBoard.categories.length = 6 ∧ ∀ cat ∈ demoBoard.categories, cat.clues.length = 5) :=
  have h : (setupAndStart demoRng (click demoBoard ⟨0, 0, true⟩)).run demoSource 0
      = .fulfilled demoBoard () := by
    rw [setupAndStart_run]
    decide
  ⟨h, setup_grid_shape demoSource demoRng _ demoBoard h⟩

/-- C4 fails as stated: against a source whose categories hold fewer than five clues no
request fails and the run ends with six categories of 3, 0, 4, 1, 5 and 2 clues. -/
theorem setup_thin_categories :
    (((setupAndStart demoRng demoStart).run thinSource 0).fulfilledState).map
        (fun s => s.categories.map fun cat => cat.clues.length)
      = some [3, 0, 4, 1, 5, 2] := by
  decide

/-- C6. After a run of `setupAndStart` in which no request failed, Game State is the list
of the categories fetched for the sampled identifiers, in their order: the `i`-th category
is what `getCategory` builds from the reply to the request made for the `i`-th identifier,
so its title is that reply's title.  Nothing of the previous Game State is left: a run from
any other state, with the same replies and draws, ends with the same categories. -/
theorem setup_replaces (src : Source) (rng : Nat → Nat → Nat) (s s1 : App)
    (h : (setupAndStart rng s).run src 0 = .fulfilled s1 ()) :
    ∃ pool cats, src.categories 100 = some pool ∧
      fetchEach src rng 0 (sampleSize (rng 0) (pool.map fun cat => cat.id) 6) = some cats ∧
      s1.categories = cats ∧
      s1.categories.length = (sampleSize (rng 0) (pool.map fun cat => cat.id) 6).length ∧
      (∀ i catId, (sampleSize (rng 0) (pool.map fun cat => cat.id) 6)[i]? = some catId →
        ∃ data, src.category i catId = some data ∧
          s1.categories[i]? = some (categoryOf (rng (i + 1)) data) ∧
          (s1.categories[i]?).map (fun cat => cat.title) = some data.title) ∧
      (∀ s2 : App, ∃ s3, (setupAndStart rng s2).run src 0 = .fulfilled s3 () ∧
        s3.categories = s1.categories) := by
  obtain ⟨pool, cats, hp, hf, hs⟩ := setupAndStart_fulfilled h
  have hcats : s1.categories = cats := by rw [hs, fillTable_state_categories]
  refine ⟨pool, cats, hp, hf, hcats, ?_, ?_, ?_⟩
  · rw [hcats, fetchEach_length src rng _ 0 cats hf]
  · intro i catId hi
    obtain ⟨data, hd, hc⟩ := fetchEach_getElem_some src rng _ 0 cats hf i catId hi
    rw [Nat.zero_add] at hd hc
    refine ⟨data, hd, by rw [hcats, hc], ?_⟩
    rw [hcats, hc]
    rfl
  · intro s2
    refine ⟨(fillTable { s2 with categories := cats }).state, ?_, ?_⟩
    · rw [setupAndStart_run]
      simp only [hp, hf]
    · rw [fillTable_state_categories, hcats]

theorem setup_replaces_witness :
    (setupAndStart demoRng (click demoBoard ⟨0, 0, true⟩)).run demoSource 0
      = .fulfilled demoBoard () ∧
    ∃ pool cats, demoSource.categories 100 = some pool ∧
      fetchEach demoSource demoRng 0 (sampleSize (demoRng 0) (pool.map fun cat => cat.id) 6)
        = some cats ∧
      demoBoard.categories = cats ∧
      demoBoard.categories.length
        = (sampleSize (demoRng 0) (pool.map fun cat => cat.id) 6).length ∧
      (∀ i catId, (sampleSize (demoRng 0) (pool.map fun cat => cat.id) 6)[i]? = some catId →
        ∃ data, demoSource.category i catId = some data ∧
          demoBoard.categories[i]? = some (categoryOf (demoRng (i + 1)) data) ∧
          (demoBoard.categories[i]?).map (fun cat => cat.title) = some data.title) ∧
      (∀ s2 : App, ∃ s3, (setupAndStart demoRng s2).run demoSource 0 = .fulfilled s3 () ∧
        s3.categories = demoBoard.categories) :=
  have h : (setupAndStart demoRng (click demoBoard ⟨0, 0, true⟩)).run demoSource 0
      = .fulfilled demoBoard () := by
    rw [setupAndStart_run]
    decide
  ⟨h, setup_replaces demoSource demoRng _ demoBoard h⟩

/-! ## `setupAndStart`: the suspension points -/

theorem range_succ_map {β : Type} (f : Nat → β) (n : Nat) :
    (List.range (n + 1)).map f = f 0 :: (List.range n).map fun j => f (j + 1) := by
  rw [List.range_succ_eq_map, List.map_cons, List.map_map]
  rfl

theorem pushEach_bind_suspensions {β : Type} (src : Source) (rng : Nat → Nat → Nat)
    (g : Unit → App → Susp β) :
    ∀ (ids : List Nat) (i : Nat) (s : App),
      ((pushEach rng i ids s).bind g).suspensions src i =
        (List.range (min ids.length ((fetchedPrefix src rng i ids).length + 1))).map
            (fun j => { s with categories := s.categories ++ (fetchedPrefix src rng i ids).take j })
          ++
          match fetchEach src rng i ids with
          | some cats =>
            (g () { s with categories := s.categories ++ cats }).suspensions src (i + ids.length)
          | none => []
  | [], i, s => by
    simp only [pushEach, Susp.bind, fetchEach, fetchedPrefix, app_categories_append_nil,
      List.length_nil, Nat.add_zero, Nat.zero_min, List.range_zero, List.map_nil, List.nil_append]
  | catId :: rest, i, s => by
    simp only [pushEach, getCategory, Susp.bind, Susp.suspensions, fetchEach, fetchedPrefix]
    cases hd : src.category i catId with
    | none =>
      simp [Susp.bind, Susp.suspensions]
    | some data =>
      simp only [Susp.bind]
      rw [pushEach_bind_suspensions src rng g rest (i + 1)]
      have hmin : min (rest.length + 1) ((fetchedPrefix src rng (i + 1) rest).length + 1 + 1)
          = min rest.length ((fetchedPrefix src rng (i + 1) rest).length + 1) + 1 := by
        omega
      simp only [List.length_cons, hmin, range_succ_map, List.take_zero, List.append_nil,
        List.take_succ_cons, List.append_assoc, List.singleton_append, List.cons_append]
      congr 1
      congr 1
      cases fetchEach src rng (i + 1) rest with
      | none => rfl
      | some cats =>
        simp only [List.nil_append]
        rw [Nat.add_assoc, Nat.add_comm 1]

/-- C10, amended.  In a run of `setupAndStart` the first suspension, awaiting the
identifiers, finds the state untouched.  Every later suspension is the await of a category
request: the one made for the `j`-th identifier (`j` from 0) finds Game State holding
exactly the `j` categories fetched so far, the previous categories gone, and the rest of
the state untouched.  There is one such suspension for every identifier, or up to the first
request that fails.  So a handler that runs during a suspension after the first finds Game
State emptied or partly filled. -/
theorem setup_suspensions (src : Source) (rng : Nat → Nat → Nat) (s : App) :
    (setupAndStart rng s).suspensions src 0 =
      s ::
        match src.categories 100 with
        | none => []
        | some pool =>
          (List.range
              (min (sampleSize (rng 0) (pool.map fun cat => cat.id) 6).length
                ((fetchedPrefix src rng 0
                  (sampleSize (rng 0) (pool.map fun cat => cat.id) 6)).length + 1))).map
            fun j =>
              { s with
                categories :=
                  (fetchedPrefix src rng 0
                    (sampleSize (rng 0) (pool.map fun cat => cat.id) 6)).take j } := by
  simp only [setupAndStart, getCategoryIds, Susp.bind, Susp.suspensions]
  cases src.categories 100 with
  | none => simp only [Susp.bind, Susp.suspensions]
  | some pool =>
    simp only [Susp.bind]
    rw [pushEach_bind_suspensions]
    cases fetchEach src rng 0 (sampleSize (rng 0) (pool.map fun cat => cat.id) 6) with
    | none => simp only [List.nil_append, List.append_nil]
    | some cats => simp only [List.nil_append, Susp.suspensions, List.append_nil]

/-- C10 fails as stated: a run started on the board of the sample game, which holds six
categories, is suspended seven times, and the handlers that run during the last six
suspensions find 0, 1, 2, 3, 4 and 5 categories in Game State. -/
theorem setup_suspended_mid_replacement :
    ((setupAndStart demoRng demoBoard).suspensions demoSource 0).map
        (fun t => t.categories.length)
      = [6, 0, 1, 2, 3, 4, 5] := by
  decide

/-! ## The loading view -/

/-- C8, in every run.  The timer callback calls `setupAndStart()` without awaiting it, so
`hideLoadingView()` runs as soon as that call is suspended at its first `await`: when the
callback returns the spinner is gone and the label is "Restart", while the task still waits
for the list of identifiers, and Game State and the table are as the callback found them.
The callback is the task `setupAndStart` would be if `hideLoadingView` had run before it. -/
theorem timeoutCallback_hides_first (rng : Nat → Nat → Nat) (s : App) :
    timeoutCallback rng s = setupAndStart rng (hideLoadingView s) ∧
    (∃ k, timeoutCallback rng s = .awaitCategories (hideLoadingView s) 100 k) ∧
    (timeoutCallback rng s).state.spinners = 0 ∧
    (timeoutCallback rng s).state.startText = "Restart" ∧
    (timeoutCallback rng s).state.categories = s.categories ∧
    (timeoutCallback rng s).state.thead = s.thead ∧
    (timeoutCallback rng s).state.tbody = s.tbody :=
  ⟨rfl, ⟨_, rfl⟩, rfl, rfl, rfl, rfl, rfl⟩

/-- When the source answers every request, a run of `setupAndStart` ends without throwing. -/
theorem setupAndStart_returns (src : Source) (rng : Nat → Nat → Nat) (s : App)
    (hp : (src.categories 100).isSome) (hc : ∀ i catId, (src.category i catId).isSome) :
    ∃ s1, (setupAndStart rng s).run src 0 = .fulfilled s1 () := by
  rw [setupAndStart_run]
  cases h : src.categories 100 with
  | none => simp [h] at hp
  | some pool =>
    simp only []
    have hf := fetchEach_of_answers src rng
      (sampleSize (rng 0) (pool.map fun cat => cat.id) 6) 0 (fun j catId _ => hc _ catId)
    cases h2 : fetchEach src rng 0 (sampleSize (rng 0) (pool.map fun cat => cat.id) 6) with
    | none => simp [h2] at hf
    | some cats => exact ⟨_, rfl⟩
end Jeopardy
